import Mathlib

/-!
SDL2-GameOfLife: embedding of `Game.cpp`.

The simulation core of `src/src/Game.cpp` (board initialisation, neighbour
lookup, one evolution step, the event handler and the fixed-step tick) is
translated function by function.

Conventions of the embedding:

* `int` values are `Int`; where a signed overflow is conceivable (the
  pointer-derived index, `++ticks_`) the operation is checked against the
  32-bit range and an overflow is undefined behaviour, rendered as `none`.
* The `int` remainder `%` is undefined for a zero divisor, rendered as `none`;
  `&&` and `||` are evaluated with their short circuit.
* `std::size_t` values are `Nat` with explicit arithmetic modulo `2^64`.
* `std::vector<Cell>` is `List Cell`; `operator[]` outside the vector is
  undefined behaviour, rendered as `none`.
* `cell_size_`, `cells_width_` and `cells_height_` are assigned once, in the
  constructor's initialiser list, and never again: they are constants here.
* `for (int i = 0; i < n; ++i)` loops run over `List.range n`; their counters
  are never negative and are kept as `Nat`.
-/

namespace GameOfLife

/-! ## Constants (`Constants.hpp`, constructor initialiser list) -/

/-- Constant `constants::screen_width`. -/
def screen_width : Int := 1920

/-- Constant `constants::screen_height`. -/
def screen_height : Int := 1280

/-- Member initialiser `cell_size_(16)`. -/
def cell_size_ : Int := 16

/-- Member initialiser `cells_width_(constants::screen_width / cell_size_)`. -/
def cells_width_ : Int := Int.tdiv screen_width cell_size_

/-- Member initialiser `cells_height_(constants::screen_height / cell_size_)`. -/
def cells_height_ : Int := Int.tdiv screen_height cell_size_

/-- Largest value of a 32-bit `int`. -/
def INT_MAX : Int := 2147483647

/-- Smallest value of a 32-bit `int`. -/
def INT_MIN : Int := -2147483648

/-! ## Machine arithmetic -/

/-- Result of an `int` computation: undefined when it leaves the 32-bit range. -/
def int_checked (z : Int) : Option Int :=
  if INT_MIN ≤ z ∧ z ≤ INT_MAX then some z else none

/-- Conversion of an `int` to `std::size_t` (reduction modulo `2^64`). -/
def size_t_of_int (z : Int) : Nat := (z % 2 ^ 64).toNat

/-- Addition of two `std::size_t` values. -/
def size_add (a b : Nat) : Nat := (a + b) % 2 ^ 64

/-- Subtraction of two `std::size_t` values (wraps below zero). -/
def size_sub (a b : Nat) : Nat := (a + (2 ^ 64 - b % 2 ^ 64)) % 2 ^ 64

/-- Loop `for (int i = 0; i < n; ++i) body`, threading the mutated value. -/
def forRange {β : Type} (n : Int) (body : β → Nat → Option β) (start : β) : Option β :=
  (List.range n.toNat).foldlM body start

/-! ## Data model (`Game.hpp`) -/

/-- The SDL type `SDL_Rect`. -/
structure SDL_Rect where
  x : Int
  y : Int
  w : Int
  h : Int
  deriving DecidableEq, Repr

/-- The SDL type `SDL_Point`. -/
structure SDL_Point where
  x : Int
  y : Int
  deriving DecidableEq, Repr

/-- The record `struct Cell`. -/
structure Cell where
  rect_ : SDL_Rect
  alive_ : Bool
  deriving DecidableEq, Repr

/-- The fields of `class Game` that the simulation core reads or writes
(the window and renderer handles and `initialized_` are left out). -/
structure Game where
  running_ : Bool
  ticks_ : Int
  evolve_speed_ : Int
  mouse_left_pressed_ : Bool
  setting_walls_ : Bool
  evolving_ : Bool
  board_ : List Cell
  buffer_board_ : List Cell
  init_board_ : List Cell
  mouse_position_ : SDL_Point
  deriving DecidableEq, Repr

/-- The call `std::vector::resize`: keeps the first `n` cells and pads with
value-initialised cells. -/
def resize (board : List Cell) (n : Nat) : List Cell :=
  board.take n ++ List.replicate (n - board.length) ⟨⟨0, 0, 0, 0⟩, false⟩

/-- Assignment `board[index] = c`. -/
def write_cell (board : List Cell) (index : Nat) (c : Cell) : Option (List Cell) :=
  match board[index]? with
  | none => none
  | some _ => some (board.set index c)

/-- Assignment `board[index].alive_ = v`. -/
def set_alive (board : List Cell) (index : Nat) (v : Bool) : Option (List Cell) :=
  match board[index]? with
  | none => none
  | some c => some (board.set index { c with alive_ := v })

/-- The test `std::all_of(board, !cell.alive_)`. -/
def all_cells_dead (board : List Cell) : Bool :=
  board.all (fun cell => !cell.alive_)

/-! ## `Game::InitializeBoard` -/

/-- Body of the inner loop of `InitializeBoard` for the cell `(x, y)`. -/
def InitializeCell (y : Nat) (board : List Cell) (x : Nat) : Option (List Cell) :=
  let index : Nat := y * cells_width_.toNat + x
  match board[index]? with
  | none => none
  | some c =>
    let r : SDL_Rect := { c.rect_ with x := x * cell_size_ }
    let r : SDL_Rect := { r with y := y * cell_size_ }
    let r : SDL_Rect := { r with w := cell_size_ }
    let r : SDL_Rect := { r with h := r.w }
    write_cell board index { rect_ := r, alive_ := false }

/-- The method `Game::InitializeBoard`: resize, then the two nested loops. -/
def InitializeBoard (board : List Cell) : Option (List Cell) :=
  let board := resize board (cells_width_ * cells_height_).toNat
  forRange cells_height_ (fun board y => forRange cells_width_ (InitializeCell y) board) board

/-! ## `Game::GetNeighboursIndices` -/

/-- The method `Game::GetNeighboursIndices`, reading the rectangle of `board_[cell_index]`. -/
def GetNeighboursIndices (board_ : List Cell) (cell_index : Nat) : Option (List Nat) :=
  match board_[cell_index]? with
  | none => none
  | some cell =>
    let cell_rect := cell.rect_
    let left_cell_available : Bool := decide (cell_rect.x - cell_size_ ≥ 0)
    let right_cell_available : Bool := decide (cell_rect.x + cell_size_ < screen_width)
    let upper_cell_available : Bool := decide (cell_rect.y - cell_size_ ≥ 0)
    let lower_cell_available : Bool := decide (cell_rect.y + cell_size_ < screen_height)
    let row : Nat := size_t_of_int (Int.tdiv screen_width cell_size_)
    let result_indices : List Nat := []
    let result_indices :=
      if left_cell_available then result_indices ++ [size_sub cell_index 1]
      else result_indices
    let result_indices :=
      if right_cell_available then result_indices ++ [size_add cell_index 1]
      else result_indices
    let result_indices :=
      if upper_cell_available then result_indices ++ [size_sub cell_index row]
      else result_indices
    let result_indices :=
      if lower_cell_available then result_indices ++ [size_add cell_index row]
      else result_indices
    let result_indices :=
      if left_cell_available && upper_cell_available then
        result_indices ++ [size_sub (size_sub cell_index row) 1]
      else result_indices
    let result_indices :=
      if left_cell_available && lower_cell_available then
        result_indices ++ [size_sub (size_add cell_index row) 1]
      else result_indices
    let result_indices :=
      if right_cell_available && upper_cell_available then
        result_indices ++ [size_add (size_sub cell_index row) 1]
      else result_indices
    let result_indices :=
      if right_cell_available && lower_cell_available then
        result_indices ++ [size_add (size_add cell_index row) 1]
      else result_indices
    some result_indices

/-! ## `Game::EvolveBoard` -/

/-- The `std::count_if` of `EvolveBoard`: how many of the listed cells of
`board_` are alive. -/
def count_alive (board_ : List Cell) : List Nat → Option Nat
  | [] => some 0
  | neighbour_index :: rest =>
    match board_[neighbour_index]? with
    | none => none
    | some c =>
      match count_alive board_ rest with
      | none => none
      | some n => some (if c.alive_ then n + 1 else n)

/-- Body of the inner loop of `EvolveBoard` for the cell at `index`: reads
`board_`, writes `buffer_board_`. -/
def EvolveCell (board_ : List Cell) (buffer_board_ : List Cell) (index : Nat) :
    Option (List Cell) :=
  match GetNeighboursIndices board_ index with
  | none => none
  | some neighbour_indices =>
    match count_alive board_ neighbour_indices with
    | none => none
    | some alive_neighbours =>
      match board_[index]? with
      | none => none
      | some cell =>
        if cell.alive_ then
          if alive_neighbours < 2 || alive_neighbours > 3 then
            set_alive buffer_board_ index false
          else some buffer_board_
        else
          if alive_neighbours == 3 then
            set_alive buffer_board_ index true
          else some buffer_board_

/-- The two nested loops of `EvolveBoard`. -/
def EvolveLoops (board_ : List Cell) (buffer_board_ : List Cell) : Option (List Cell) :=
  forRange cells_height_
    (fun buf y =>
      forRange cells_width_
        (fun buf x => EvolveCell board_ buf (y * cells_width_.toNat + x)) buf)
    buffer_board_

/-- The method `Game::EvolveBoard`. -/
def Game.EvolveBoard (g : Game) : Option Game :=
  if all_cells_dead g.board_ then
    some { g with evolving_ := false }
  else
    let g := { g with buffer_board_ := g.board_ }
    match EvolveLoops g.board_ g.buffer_board_ with
    | none => none
    | some buffer_board_ =>
      -- std::swap(buffer_board_, board_)
      some { g with board_ := buffer_board_, buffer_board_ := g.board_ }

/-! ## `Game::HandleEvents` -/

/-- The `type` tag of an `SDL_Event`, as far as `HandleEvents` tells them apart. -/
inductive EventType where
  | SDL_QUIT
  | SDL_MOUSEBUTTONDOWN
  | SDL_MOUSEBUTTONUP
  | SDL_MOUSEMOTION
  | SDL_KEYDOWN
  | other
  deriving DecidableEq, Repr

/-- Value of `e.button.button`. -/
inductive Button where
  | SDL_BUTTON_LEFT
  | other
  deriving DecidableEq, Repr

/-- Value of `e.key.keysym.sym`. -/
inductive Keycode where
  | SDLK_s
  | SDLK_r
  | SDLK_c
  | SDLK_DOWN
  | SDLK_UP
  | other
  deriving DecidableEq, Repr

/-- An `SDL_Event`: `button` is read only for button events, `sym` only for
key events. -/
structure SDL_Event where
  type : EventType
  button : Button
  sym : Keycode
  deriving DecidableEq, Repr

/-- The pointer formula
`(mouse_position_.y / cell_size_) * cells_width_ + (mouse_position_.x / cell_size_)`
computed in `int` (division truncates toward zero) and converted to
`std::size_t` for `operator[]`. -/
def mouse_index (p : SDL_Point) : Option Nat :=
  match int_checked (Int.tdiv p.y cell_size_ * cells_width_) with
  | none => none
  | some rows =>
    match int_checked (rows + Int.tdiv p.x cell_size_) with
    | none => none
    | some index => some (size_t_of_int index)

/-- Branch `SDL_MOUSEBUTTONDOWN` with the left button (lines 227-232). -/
def OnLeftButtonDown (g : Game) : Option Game :=
  let g := { g with init_board_ := g.board_ }
  let g := { g with mouse_left_pressed_ := true }
  match mouse_index g.mouse_position_ with
  | none => none
  | some index =>
    match g.board_[index]? with
    | none => none
    | some c =>
      let g := { g with setting_walls_ := !c.alive_ }
      match set_alive g.board_ index (!c.alive_) with
      | none => none
      | some board_ =>
        let g := { g with board_ := board_ }
        match g.init_board_[index]? with
        | none => none
        | some ci =>
          match set_alive g.init_board_ index (!ci.alive_) with
          | none => none
          | some init_board_ => some { g with init_board_ := init_board_ }

/-- Branch `SDL_MOUSEBUTTONUP` with the left button (lines 239-240). -/
def OnLeftButtonUp (g : Game) : Game :=
  let g := { g with init_board_ := g.board_ }
  { g with mouse_left_pressed_ := false }

/-- Branch `SDL_MOUSEMOTION` (lines 246-252). -/
def OnMouseMotion (g : Game) : Option Game :=
  if g.mouse_left_pressed_ then
    let g := { g with init_board_ := g.board_ }
    match mouse_index g.mouse_position_ with
    | none => none
    | some index =>
      match set_alive g.board_ index g.setting_walls_ with
      | none => none
      | some board_ =>
        let g := { g with board_ := board_ }
        match set_alive g.init_board_ index g.setting_walls_ with
        | none => none
        | some init_board_ => some { g with init_board_ := init_board_ }
  else some g

/-- Branch `SDL_KEYDOWN` (lines 258-302). -/
def OnKeyDown (g : Game) (sym : Keycode) : Game :=
  let speed_adjustment : Int := 5
  match sym with
  | .SDLK_s =>
    if !all_cells_dead g.board_ then { g with evolving_ := !g.evolving_ } else g
  | .SDLK_r =>
    let g := { g with evolving_ := false }
    { g with board_ := g.init_board_ }
  | .SDLK_c =>
    if !g.evolving_ then
      let g := { g with board_ := g.board_.map (fun (cell : Cell) => { cell with alive_ := false }) }
      { g with init_board_ := g.board_ }
    else g
  | .SDLK_DOWN =>
    if g.evolve_speed_ < 60 then
      { g with evolve_speed_ := g.evolve_speed_ + speed_adjustment }
    else g
  | .SDLK_UP =>
    if g.evolve_speed_ - speed_adjustment ≥ 0 then
      { g with evolve_speed_ := g.evolve_speed_ - speed_adjustment }
    else g
  | .other => g

/-- The pointer part of one loop iteration (the block under `if (!evolving_)`). -/
def OnPointer (g : Game) (e : SDL_Event) : Option Game :=
  let afterButton : Option Game :=
    if e.type = .SDL_MOUSEBUTTONDOWN then
      if e.button = .SDL_BUTTON_LEFT then OnLeftButtonDown g else some g
    else if e.type = .SDL_MOUSEBUTTONUP then
      if e.button = .SDL_BUTTON_LEFT then some (OnLeftButtonUp g) else some g
    else some g
  match afterButton with
  | none => none
  | some g => if e.type = .SDL_MOUSEMOTION then OnMouseMotion g else some g

/-- One iteration of the loop of `Game::HandleEvents`: `mouse` is what
`SDL_GetMouseState` reports when the event `e` is polled. -/
def Game.HandleEvent (g : Game) (mouse : SDL_Point) (e : SDL_Event) : Option Game :=
  let g := { g with mouse_position_ := mouse }
  if e.type = .SDL_QUIT then
    some { g with running_ := false }
  else
    match (if !g.evolving_ then OnPointer g e else some g) with
    | none => none
    | some g => if e.type = .SDL_KEYDOWN then some (OnKeyDown g e.sym) else some g

/-- The method `Game::HandleEvents` on the queue of pending events, each paired with the
pointer position read when it is polled; `SDL_QUIT` returns at once. -/
def Game.HandleEvents (g : Game) : List (SDL_Point × SDL_Event) → Option Game
  | [] => some g
  | (mouse, e) :: rest =>
    match g.HandleEvent mouse e with
    | none => none
    | some g1 => if e.type = .SDL_QUIT then some g1 else Game.HandleEvents g1 rest

/-! ## `Game::Tick` and the constructor -/

/-- The C++ remainder `a % b` on `int`: undefined for a zero divisor and for
`INT_MIN % -1`, otherwise the truncating remainder. -/
def int_rem (a b : Int) : Option Int :=
  if b = 0 then none
  else if a = INT_MIN ∧ b = -1 then none
  else some (Int.tmod a b)

/-- The condition of `Tick`,
`evolving_ && (evolve_speed_ == 0 || ticks_ % evolve_speed_ == 0)`, evaluated
left to right with the short circuit of `&&` and `||`: the remainder is
computed only when `evolving_` is true and `evolve_speed_` is not zero. -/
def evolve_due (g : Game) : Option Bool :=
  if g.evolving_ then
    if g.evolve_speed_ == 0 then some true
    else
      match int_rem g.ticks_ g.evolve_speed_ with
      | none => none
      | some r => some (r == 0)
  else some false

/-- The method `Game::Tick`: `++ticks_` is undefined at `INT_MAX`; then the
condition is evaluated and `EvolveBoard` called when it holds. -/
def Game.Tick (g : Game) : Option Game :=
  match int_checked (g.ticks_ + 1) with
  | none => none
  | some t =>
    let g := { g with ticks_ := t }
    match evolve_due g with
    | none => none
    | some true => g.EvolveBoard
    | some false => some g

/-- Body of `Game::Game`: the member initialisers, then the three
`InitializeBoard` calls, on the three vectors as they are before the calls. -/
def Game.init_with (board_ buffer_board_ init_board_ : List Cell) : Option Game :=
  match InitializeBoard board_, InitializeBoard buffer_board_, InitializeBoard init_board_ with
  | some board_, some buffer_board_, some init_board_ =>
    some
      { running_ := false
        ticks_ := 0
        evolve_speed_ := 10
        mouse_left_pressed_ := false
        setting_walls_ := true
        evolving_ := false
        board_ := board_
        buffer_board_ := buffer_board_
        init_board_ := init_board_
        mouse_position_ := ⟨0, 0⟩ }
  | _, _, _ => none

/-- The constructor `Game::Game`: the three vectors are default-constructed, that is empty. -/
def Game.init : Option Game := Game.init_with [] [] []

/-- States the program can be in: the constructed state, then any sequence of
handled events and ticks. -/
inductive Reachable : Game → Prop where
  | init {g : Game} : Game.init = some g → Reachable g
  | event {g g1 : Game} (mouse : SDL_Point) (e : SDL_Event) :
      Reachable g → g.HandleEvent mouse e = some g1 → Reachable g1
  | tick {g g1 : Game} : Reachable g → g.Tick = some g1 → Reachable g1

/-! ## Auxiliary definitions for the proofs -/

/-- A board laid out as `InitializeBoard` lays it out: `120 * 80` cells, the
cell at index `y * 120 + x` carrying the rectangle of origin `(16 x, 16 y)` and
side `16`. -/
def GridBoard (board : List Cell) : Prop :=
  board.length = 9600 ∧
    ∀ y : Nat, y < 80 → ∀ x : Nat, x < 120 →
      (board[y * 120 + x]?).map Cell.rect_ = some ⟨(x : Int) * 16, (y : Int) * 16, 16, 16⟩

instance (board : List Cell) : Decidable (GridBoard board) := by
  unfold GridBoard; infer_instance

/-- Closed form of the neighbour list on the grid, in exact arithmetic. -/
def neighbours_closed (i : Nat) : List Nat :=
  (if 1 ≤ i % 120 then [i - 1] else []) ++
  (if i % 120 < 119 then [i + 1] else []) ++
  (if 1 ≤ i / 120 then [i - 120] else []) ++
  (if i / 120 < 79 then [i + 120] else []) ++
  (if 1 ≤ i % 120 ∧ 1 ≤ i / 120 then [i - 121] else []) ++
  (if 1 ≤ i % 120 ∧ i / 120 < 79 then [i + 119] else []) ++
  (if i % 120 < 119 ∧ 1 ≤ i / 120 then [i - 119] else []) ++
  (if i % 120 < 119 ∧ i / 120 < 79 then [i + 121] else [])

/-- Whether the cell at `index` exists and is alive. -/
def alive_at (board : List Cell) (index : Nat) : Bool :=
  match board[index]? with
  | some c => c.alive_
  | none => false

/-- The rule of `EvolveBoard` for the cell at `index`, read off the loop body. -/
def next_alive (board : List Cell) (index : Nat) : Bool :=
  let n := (neighbours_closed index).countP (alive_at board)
  if alive_at board index then !(decide (n < 2) || decide (n > 3)) else n == 3

/-- State of `buffer_board_` once the cells of index below `k` are done: they
carry the new generation, computed from `board`; the others still equal `board`. -/
def EvolvedUpTo (board : List Cell) (k : Nat) (buf : List Cell) : Prop :=
  buf.length = board.length ∧
    ∀ i, buf[i]? =
      if i < k then (board[i]?).map (fun c => { c with alive_ := next_alive board i })
      else board[i]?

/-- Spec (§4.2, §4.3): the cell at grid coordinates `(x, y)` counts as alive when
it lies inside the `120 x 80` grid and its `alive` flag is set; off-grid
positions are simply absent (no wrap-around). -/
def spec_alive (board : List Cell) (x y : Int) : Bool :=
  decide (0 ≤ x ∧ x < 120 ∧ 0 ≤ y ∧ y < 80) && alive_at board (y * 120 + x).toNat

/-- Spec (§4.2): the eight compass offsets (N, S, E, W and the four diagonals). -/
def compass : List (Int × Int) :=
  [(-1, -1), (0, -1), (1, -1), (-1, 0), (1, 0), (-1, 1), (0, 1), (1, 1)]

/-- Spec (§4.3): number of alive neighbours of `(x, y)` on `board`. -/
def spec_alive_neighbours (board : List Cell) (x y : Int) : Nat :=
  compass.countP (fun d => spec_alive board (x + d.1) (y + d.2))

/-- Spec (§4.3): the standard rule: an alive cell survives with 2 or 3 alive
neighbours, a dead cell is born with exactly 3. -/
def spec_next_alive (board : List Cell) (x y : Int) : Bool :=
  if spec_alive board x y then
    decide (spec_alive_neighbours board x y = 2 ∨ spec_alive_neighbours board x y = 3)
  else decide (spec_alive_neighbours board x y = 3)

/-- The rectangle `InitializeBoard` gives the cell at `index`. -/
def grid_rect (index : Nat) : SDL_Rect :=
  ⟨((index % 120 : Nat) : Int) * 16, ((index / 120 : Nat) : Int) * 16, 16, 16⟩

/-- The board on the `120 x 80` grid whose cell at index `i` is alive exactly
when `alive i` holds. -/
def board_of (alive : Nat → Bool) : List Cell :=
  (List.range 9600).map (fun i => ⟨grid_rect i, alive i⟩)

/-- The all-dead board. -/
def blank_board : List Cell := board_of (fun _ => false)

/-- State of a board being initialised once the cells of index below `k` are
written. -/
def InitializedUpTo (k : Nat) (board : List Cell) : Prop :=
  board.length = 9600 ∧ ∀ i, i < k → board[i]? = some ⟨grid_rect i, false⟩

/-- The state built by the constructor `Game::Game`. -/
def start_game : Game :=
  { running_ := false
    ticks_ := 0
    evolve_speed_ := 10
    mouse_left_pressed_ := false
    setting_walls_ := true
    evolving_ := false
    board_ := blank_board
    buffer_board_ := blank_board
    init_board_ := blank_board
    mouse_position_ := ⟨0, 0⟩ }

/-- What the frame loop of `Game::Run` feeds the state: a polled event with the
pointer position read at that moment, or a call of `Tick`. -/
inductive Input where
  | event (mouse : SDL_Point) (e : SDL_Event)
  | tick

/-- One input handled. -/
def Game.step (g : Game) : Input → Option Game
  | .event mouse e => g.HandleEvent mouse e
  | .tick => g.Tick

/-- A sequence of inputs handled in order. -/
def Game.run (g : Game) : List Input → Option Game
  | [] => some g
  | i :: rest =>
    match g.step i with
    | none => none
    | some g1 => Game.run g1 rest

/-- Left button pressed. -/
def left_press : SDL_Event := ⟨.SDL_MOUSEBUTTONDOWN, .SDL_BUTTON_LEFT, .other⟩

/-- Left button released. -/
def left_release : SDL_Event := ⟨.SDL_MOUSEBUTTONUP, .SDL_BUTTON_LEFT, .other⟩

/-- Pointer moved. -/
def mouse_motion : SDL_Event := ⟨.SDL_MOUSEMOTION, .other, .other⟩

/-- Key pressed. -/
def key_down (sym : Keycode) : SDL_Event := ⟨.SDL_KEYDOWN, .other, sym⟩

/-- The board whose only alive cell is the one at index `k`. -/
def single_cell (k : Nat) : List Cell := board_of (fun j => decide (j = k))

/-- A state at the default speed with the pointer at the origin: the states
passed through by the example runs. -/
def play (ticks : Int) (pressed evolving : Bool) (board buffer snapshot : List Cell) : Game :=
  { running_ := false
    ticks_ := ticks
    evolve_speed_ := 10
    mouse_left_pressed_ := pressed
    setting_walls_ := true
    evolving_ := evolving
    board_ := board
    buffer_board_ := buffer
    init_board_ := snapshot
    mouse_position_ := ⟨0, 0⟩ }

/-- Paint the cell at the origin with one click, then start the simulation. -/
def paint_and_start : List Input :=
  [.event ⟨0, 0⟩ left_press, .event ⟨0, 0⟩ left_release, .event ⟨0, 0⟩ (key_down .SDLK_s)]

/-- The speed stays a multiple of 5 between 0 and 60. -/
def SpeedOk (g : Game) : Prop :=
  0 ≤ g.evolve_speed_ ∧ g.evolve_speed_ ≤ 60 ∧ g.evolve_speed_ % 5 = 0

/-- The three boards of a state are laid out on the grid. -/
def GridGame (g : Game) : Prop :=
  GridBoard g.board_ ∧ GridBoard g.buffer_board_ ∧ GridBoard g.init_board_

/-- The pointer position lies inside the `1920 x 1280` grid area. -/
def in_grid (p : SDL_Point) : Prop :=
  0 ≤ p.x ∧ p.x < 1920 ∧ 0 ≤ p.y ∧ p.y < 1280

/-- Index of the cell whose rectangle contains the in-grid position `p`. -/
def cell_under (p : SDL_Point) : Nat :=
  (p.y / 16).toNat * 120 + (p.x / 16).toNat

/-- The drag part of a gesture: one motion event per pointer position. -/
def drag (moves : List SDL_Point) : List Input :=
  moves.map (fun p => Input.event p mouse_motion)

/-- A press-drag-release gesture: left press at `p0`, motion events at `moves`,
left release at `pr`. -/
def gesture (p0 : SDL_Point) (moves : List SDL_Point) (pr : SDL_Point) : List Input :=
  Input.event p0 left_press :: (drag moves ++ [Input.event pr left_release])

/-- State in the middle of a gesture started in `g0`: editing, button held,
paint value `v`, the cells of `visited` painted with `v` on the board of `g0`,
snapshot equal to the live board. -/
def Painting (g0 : Game) (v : Bool) (visited : List Nat) (g : Game) : Prop :=
  g.evolving_ = false ∧ g.mouse_left_pressed_ = true ∧ g.setting_walls_ = v ∧
    g.board_ = board_of (fun j => if j ∈ visited then v else alive_at g0.board_ j) ∧
    g.init_board_ = g.board_

/-- The board on the grid whose only alive cells are those at the listed grid
coordinates `(x, y)`. -/
def cells_board (cells : List (Nat × Nat)) : List Cell :=
  board_of (fun i => decide ((i % 120, i / 120) ∈ cells))

/-- A pattern given by offsets relative to the grid position `(x0, y0)`. -/
def shift (x0 y0 : Nat) (S : List (Int × Int)) : List (Nat × Nat) :=
  S.map (fun s => (((x0 : Int) + s.1).toNat, ((y0 : Int) + s.2).toNat))

/-- The pattern `S` placed at `(x0, y0)` lies inside the grid. -/
def Fits (x0 y0 : Nat) (S : List (Int × Int)) : Prop :=
  ∀ s ∈ S, 0 ≤ (x0 : Int) + s.1 ∧ (x0 : Int) + s.1 < 120 ∧
    0 ≤ (y0 : Int) + s.2 ∧ (y0 : Int) + s.2 < 80

/-- The rule of the specification on the unbounded plane, for the pattern `S`
at the position `(a, b)`. -/
def rel_next (S : List (Int × Int)) (a b : Int) : Bool :=
  if (a, b) ∈ S then
    decide (compass.countP (fun d => decide ((a + d.1, b + d.2) ∈ S)) = 2 ∨
      compass.countP (fun d => decide ((a + d.1, b + d.2) ∈ S)) = 3)
  else decide (compass.countP (fun d => decide ((a + d.1, b + d.2) ∈ S)) = 3)

/-- The result of `n` successive calls of `EvolveBoard`. -/
def EvolveBoard_times : Nat → Game → Option Game
  | 0, g => some g
  | n + 1, g =>
    match g.EvolveBoard with
    | none => none
    | some g1 => EvolveBoard_times n g1

/-- The five cells of the glider with its box at `(x0, y0)`. -/
def glider_at (x0 y0 : Nat) : List (Nat × Nat) :=
  [(x0 + 1, y0), (x0 + 2, y0 + 1), (x0, y0 + 2), (x0 + 1, y0 + 2), (x0 + 2, y0 + 2)]

/-- The glider, relative to its box. -/
def glider0 : List (Int × Int) := [(1, 0), (2, 1), (0, 2), (1, 2), (2, 2)]

/-- The glider after one generation. -/
def glider1 : List (Int × Int) := [(0, 1), (2, 1), (1, 2), (2, 2), (1, 3)]

/-- The glider after two generations. -/
def glider2 : List (Int × Int) := [(2, 1), (0, 2), (2, 2), (1, 3), (2, 3)]

/-- The glider after three generations. -/
def glider3 : List (Int × Int) := [(1, 1), (2, 2), (3, 2), (1, 3), (2, 3)]

/-- The glider after four generations: the first pattern moved by `(1, 1)`. -/
def glider4 : List (Int × Int) := [(2, 1), (3, 2), (1, 3), (2, 3), (3, 3)]

/-- The four cells of the block with top left cell `(x0, y0)`. -/
def block_at (x0 y0 : Nat) : List (Nat × Nat) :=
  [(x0, y0), (x0 + 1, y0), (x0, y0 + 1), (x0 + 1, y0 + 1)]

/-- The block, relative to its top left cell. -/
def block0 : List (Int × Int) := [(0, 0), (1, 0), (0, 1), (1, 1)]

/-- The horizontal line of three cells centred at `(cx, cy)`. -/
def blinker_h_at (cx cy : Nat) : List (Nat × Nat) :=
  [(cx - 1, cy), (cx, cy), (cx + 1, cy)]

/-- The vertical line of three cells centred at `(cx, cy)`. -/
def blinker_v_at (cx cy : Nat) : List (Nat × Nat) :=
  [(cx, cy - 1), (cx, cy), (cx, cy + 1)]

/-- The horizontal blinker, relative to its centre. -/
def blinker_h : List (Int × Int) := [(-1, 0), (0, 0), (1, 0)]

/-- The vertical blinker, relative to its centre. -/
def blinker_v : List (Int × Int) := [(0, -1), (0, 0), (0, 1)]

/-- A run that leaves the pressed flag set: press on the cell at the origin,
start the simulation, release the button while it runs, stop the simulation. -/
def press_start_release_stop : List Input :=
  [.event ⟨0, 0⟩ left_press, .event ⟨0, 0⟩ (key_down .SDLK_s), .event ⟨0, 0⟩ left_release,
    .event ⟨0, 0⟩ (key_down .SDLK_s)]

/-! # Theorems -/


/-! ## Constants evaluated -/

theorem cells_width_eq : cells_width_ = 120 := by decide
theorem cells_height_eq : cells_height_ = 80 := by decide
theorem cells_width_toNat : cells_width_.toNat = 120 := by decide
theorem cells_height_toNat : cells_height_.toNat = 80 := by decide
theorem cell_count_toNat : (cells_width_ * cells_height_).toNat = 9600 := by decide
theorem row_stride_eq : size_t_of_int (Int.tdiv screen_width cell_size_) = 120 := by decide

/-- Loop rule: an invariant `P k` that holds before iteration `k` and is
re-established by every iteration holds, at `n`, for the result of the loop,
and the loop is defined. -/
theorem foldlM_range_inv {β : Type} (P : Nat → β → Prop) (body : β → Nat → Option β)
    (n : Nat) (start : β) (h0 : P 0 start)
    (hstep : ∀ k b, k < n → P k b → ∃ b1, body b k = some b1 ∧ P (k + 1) b1) :
    ∃ r, (List.range n).foldlM body start = some r ∧ P n r := by
  induction n with
  | zero => exact ⟨start, by simp, h0⟩
  | succ m ih =>
    obtain ⟨r, hr, hP⟩ := ih (fun k b hk hb => hstep k b (Nat.lt_succ_of_lt hk) hb)
    obtain ⟨b1, hb1, hP1⟩ := hstep m r (Nat.lt_succ_self m) hP
    refine ⟨b1, ?_, hP1⟩
    rw [List.range_succ, List.foldlM_append, hr]
    simp [hb1]

theorem GridBoard.cell {board : List Cell} (hb : GridBoard board) {i : Nat} (hi : i < 9600) :
    ∃ c, board[i]? = some c ∧
      c.rect_ = ⟨((i % 120 : Nat) : Int) * 16, ((i / 120 : Nat) : Int) * 16, 16, 16⟩ := by
  have h := hb.2 (i / 120) (by omega) (i % 120) (by omega)
  have e : i / 120 * 120 + i % 120 = i := by omega
  rw [e] at h
  cases hc : board[i]? with
  | none => simp [hc] at h
  | some c => exact ⟨c, rfl, by simpa [hc] using h⟩

theorem GetNeighboursIndices_grid {board : List Cell} (hb : GridBoard board) {i : Nat}
    (hi : i < 9600) : GetNeighboursIndices board i = some (neighbours_closed i) := by
  obtain ⟨c, hc, hr⟩ := hb.cell hi
  have hL : decide (c.rect_.x - cell_size_ ≥ 0) = decide (1 ≤ i % 120) := by
    rw [hr, decide_eq_decide]; simp only [cell_size_]; omega
  have hR : decide (c.rect_.x + cell_size_ < screen_width) = decide (i % 120 < 119) := by
    rw [hr, decide_eq_decide]; simp only [cell_size_, screen_width]; omega
  have hU : decide (c.rect_.y - cell_size_ ≥ 0) = decide (1 ≤ i / 120) := by
    rw [hr, decide_eq_decide]; simp only [cell_size_]; omega
  have hD : decide (c.rect_.y + cell_size_ < screen_height) = decide (i / 120 < 79) := by
    rw [hr, decide_eq_decide]; simp only [cell_size_, screen_height]; omega
  unfold GetNeighboursIndices neighbours_closed
  simp only [hc, row_stride_eq, hL, hR, hU, hD]
  by_cases h1 : 1 ≤ i % 120 <;> by_cases h2 : i % 120 < 119 <;>
    by_cases h3 : 1 ≤ i / 120 <;> by_cases h4 : i / 120 < 79 <;>
    simp [h1, h2, h3, h4, size_sub, size_add] <;> omega

theorem mem_neighbours_closed (i j : Nat) :
    j ∈ neighbours_closed i ↔
      (1 ≤ i % 120 ∧ j = i - 1) ∨ (i % 120 < 119 ∧ j = i + 1) ∨
      (1 ≤ i / 120 ∧ j = i - 120) ∨ (i / 120 < 79 ∧ j = i + 120) ∨
      ((1 ≤ i % 120 ∧ 1 ≤ i / 120) ∧ j = i - 121) ∨
      ((1 ≤ i % 120 ∧ i / 120 < 79) ∧ j = i + 119) ∨
      ((i % 120 < 119 ∧ 1 ≤ i / 120) ∧ j = i - 119) ∨
      ((i % 120 < 119 ∧ i / 120 < 79) ∧ j = i + 121) := by
  simp only [neighbours_closed, List.mem_append, List.mem_ite_nil_right, List.mem_singleton,
    or_assoc]

/-- Claim C2. For every cell index `i` of the `120 x 80` grid, with coordinates
`(x, y) = (i % 120, i / 120)`, `GetNeighboursIndices` returns, and an index `j`
is in the returned list exactly when `j = y' * 120 + x'` for an in-grid
position `(x', y')` other than `(x, y)` with `|x' - x| ≤ 1` and `|y' - y| ≤ 1`.
The indices are computed modulo `2^64` in the code and the equation holds in
exact integers, so no subtraction wraps; every index is below `120 * 80`, and a
cell of the first or last column gets no neighbour from the far end of an
adjacent row (that would need `|x' - x| = 119`). -/
theorem C2_neighbours_membership (board : List Cell) (hb : GridBoard board) (i : Nat)
    (hi : i < 120 * 80) :
    ∃ l, GetNeighboursIndices board i = some l ∧
      (∀ j : Nat, j ∈ l ↔
        ∃ x' y' : Int, (j : Int) = y' * 120 + x' ∧
          (x', y') ≠ (((i % 120 : Nat) : Int), ((i / 120 : Nat) : Int)) ∧
          |x' - ((i % 120 : Nat) : Int)| ≤ 1 ∧ |y' - ((i / 120 : Nat) : Int)| ≤ 1 ∧
          0 ≤ x' ∧ x' < 120 ∧ 0 ≤ y' ∧ y' < 80) ∧
      (∀ j ∈ l, j < 120 * 80) := by
  refine ⟨_, GetNeighboursIndices_grid hb hi, ?_, ?_⟩
  · intro j
    rw [mem_neighbours_closed]
    constructor
    · intro h
      refine ⟨((j % 120 : Nat) : Int), ((j / 120 : Nat) : Int), ?_⟩
      simp only [ne_eq, Prod.mk.injEq, abs_le]
      rcases h with h | h | h | h | h | h | h | h <;> omega
    · rintro ⟨x', y', h⟩
      simp only [ne_eq, Prod.mk.injEq, abs_le] at h
      obtain ⟨hj, hne, ⟨hx1, hx2⟩, ⟨hy1, hy2⟩, hx3, hx4, hy3, hy4⟩ := h
      have hx : x' = ((i % 120 : Nat) : Int) - 1 ∨ x' = ((i % 120 : Nat) : Int) ∨
          x' = ((i % 120 : Nat) : Int) + 1 := by omega
      have hy : y' = ((i / 120 : Nat) : Int) - 1 ∨ y' = ((i / 120 : Nat) : Int) ∨
          y' = ((i / 120 : Nat) : Int) + 1 := by omega
      rcases hx with hx | hx | hx <;> rcases hy with hy | hy | hy
      · right; right; right; right; left; omega
      · left; omega
      · right; right; right; right; right; left; omega
      · right; right; left; omega
      · exact absurd ⟨hx, hy⟩ hne
      · right; right; right; left; omega
      · right; right; right; right; right; right; left; omega
      · right; left; omega
      · right; right; right; right; right; right; right; omega
  · intro j hj
    rw [mem_neighbours_closed] at hj
    rcases hj with h | h | h | h | h | h | h | h <;> omega

/-- Claim C3. On the `120 x 80` grid the list returned by `GetNeighboursIndices`
repeats no index and has 3 elements at the four corners, 5 at the other cells
of the first or last row or column, and 8 at the interior cells. -/
theorem C3_neighbours_count (board : List Cell) (hb : GridBoard board) (i : Nat)
    (hi : i < 120 * 80) :
    ∃ l, GetNeighboursIndices board i = some l ∧ l.Nodup ∧
      l.length =
        if (i % 120 = 0 ∨ i % 120 = 119) ∧ (i / 120 = 0 ∨ i / 120 = 79) then 3
        else if i % 120 = 0 ∨ i % 120 = 119 ∨ i / 120 = 0 ∨ i / 120 = 79 then 5
        else 8 := by
  refine ⟨_, GetNeighboursIndices_grid hb hi, ?_, ?_⟩
  · unfold neighbours_closed
    by_cases h1 : 1 ≤ i % 120 <;> by_cases h2 : i % 120 < 119 <;>
      by_cases h3 : 1 ≤ i / 120 <;> by_cases h4 : i / 120 < 79 <;>
      simp [h1, h2, h3, h4] <;> omega
  · unfold neighbours_closed
    by_cases h1 : 1 ≤ i % 120 <;> by_cases h2 : i % 120 < 119 <;>
      by_cases h3 : 1 ≤ i / 120 <;> by_cases h4 : i / 120 < 79 <;>
      simp only [h1, h2, h3, h4, and_self, and_true, and_false, if_true, if_false,
        List.length_append, List.length_cons, List.length_nil] <;>
      first
        | omega
        | (split_ifs <;> omega)

theorem count_alive_eq (board : List Cell) (l : List Nat) (h : ∀ j ∈ l, j < board.length) :
    count_alive board l = some (l.countP (alive_at board)) := by
  induction l with
  | nil => rfl
  | cons j rest ih =>
    have hj : j < board.length := h j (List.mem_cons_self j rest)
    have e : board[j]? = some board[j] := List.getElem?_eq_getElem hj
    rw [count_alive, e]
    simp only [ih (fun k hk => h k (List.mem_cons_of_mem j hk)), List.countP_cons, alive_at, e]
    split <;> rfl

theorem set_same {α : Type} (l : List α) (i : Nat) (a : α) (h : l[i]? = some a) :
    l.set i a = l := by
  apply List.ext_getElem?
  intro j
  rw [List.getElem?_set]
  by_cases hij : i = j
  · subst hij
    have : i < l.length := by
      by_contra hn
      rw [List.getElem?_eq_none (by omega)] at h
      cases h
    simp [this, h]
  · simp [hij]

theorem EvolveCell_grid {board : List Cell} (hb : GridBoard board) {i : Nat} (hi : i < 9600)
    (buf : List Cell) (hbuf : buf[i]? = board[i]?) :
    ∃ c, board[i]? = some c ∧
      EvolveCell board buf i = some (buf.set i { c with alive_ := next_alive board i }) := by
  obtain ⟨c, hc, -⟩ := hb.cell hi
  refine ⟨c, hc, ?_⟩
  have hn : ∀ j ∈ neighbours_closed i, j < board.length := by
    intro j hj
    rw [mem_neighbours_closed] at hj
    rw [hb.1]
    rcases hj with h | h | h | h | h | h | h | h <;> omega
  have hal : alive_at board i = c.alive_ := by simp [alive_at, hc]
  unfold EvolveCell
  simp only [GetNeighboursIndices_grid hb hi, count_alive_eq board _ hn, hc, set_alive, hbuf,
    next_alive, hal]
  generalize (neighbours_closed i).countP (alive_at board) = n
  have hsame : buf = buf.set i c := (set_same buf i c (hbuf.trans hc)).symm
  obtain ⟨r, a⟩ := c
  cases a
  · by_cases h3 : n = 3
    · simp [h3]
    · have e : (n == 3) = false := by simpa using h3
      simpa [e] using hsame
  · by_cases h3 : n < 2 ∨ n > 3
    · have e : (decide (n < 2) || decide (n > 3)) = true := by simpa using h3
      simp [e]
    · have e : (decide (n < 2) || decide (n > 3)) = false := by simpa using h3
      simpa [e] using hsame

theorem EvolvedUpTo_step {board : List Cell} (hb : GridBoard board) {k : Nat} (hk : k < 9600)
    {buf : List Cell} (h : EvolvedUpTo board k buf) :
    ∃ buf1, EvolveCell board buf k = some buf1 ∧ EvolvedUpTo board (k + 1) buf1 := by
  have hbk : buf[k]? = board[k]? := by simpa using h.2 k
  obtain ⟨c, hc, hE⟩ := EvolveCell_grid hb hk buf hbk
  refine ⟨_, hE, ?_, ?_⟩
  · rw [List.length_set]; exact h.1
  · intro i
    rw [List.getElem?_set, h.2 i]
    have hlen : k < buf.length := by rw [h.1, hb.1]; exact hk
    by_cases hik : k = i
    · subst hik
      simp [hlen, hc]
    · have e : (i < k + 1) = (i < k) := by
        apply propext; omega
      simp only [hik, if_false, e]

theorem EvolveLoops_grid {board : List Cell} (hb : GridBoard board) :
    ∃ buf, EvolveLoops board board = some buf ∧ EvolvedUpTo board 9600 buf := by
  unfold EvolveLoops forRange
  simp only [cells_height_toNat, cells_width_toNat]
  refine foldlM_range_inv (fun y buf => EvolvedUpTo board (y * 120) buf) _ 80 board ?_ ?_
  · exact ⟨rfl, fun i => by simp⟩
  · intro y buf hy hP
    have e : (y + 1) * 120 = y * 120 + 120 := by omega
    show ∃ b1, _ ∧ EvolvedUpTo board ((y + 1) * 120) b1
    rw [e]
    refine foldlM_range_inv (fun x buf => EvolvedUpTo board (y * 120 + x) buf) _ 120 buf hP ?_
    intro x b hx hb1
    exact EvolvedUpTo_step hb (by omega) hb1

theorem spec_alive_offset (board : List Cell) (x y : Nat) (dx dy : Int) (c : Prop)
    [Decidable c] (a : Nat)
    (hc : c ↔ (0 ≤ (x : Int) + dx ∧ (x : Int) + dx < 120 ∧ 0 ≤ (y : Int) + dy ∧
      (y : Int) + dy < 80))
    (ha : c → (a : Int) = ((y : Int) + dy) * 120 + ((x : Int) + dx)) :
    spec_alive board ((x : Int) + dx) ((y : Int) + dy) = (decide c && alive_at board a) := by
  unfold spec_alive
  by_cases h : c
  · rw [← ha h]
    simp [h, hc.mp h]
  · have h' := mt hc.mpr h
    simp [h, h']

theorem countP_ite_single (p : Nat → Bool) (c : Prop) [Decidable c] (a : Nat) :
    List.countP p (if c then [a] else []) = (decide c && p a).toNat := by
  by_cases h : c <;> cases hp : p a <;> simp [h, hp, List.countP_cons]

theorem ite_toNat (b : Bool) : (if b = true then 1 else 0) = b.toNat := by
  cases b <;> rfl

theorem count_closed_eq_spec (board : List Cell) (x y : Nat) (hx : x < 120) (hy : y < 80) :
    (neighbours_closed (y * 120 + x)).countP (alive_at board) =
      spec_alive_neighbours board x y := by
  have hm : (y * 120 + x) % 120 = x := by omega
  have hd : (y * 120 + x) / 120 = y := by omega
  unfold neighbours_closed spec_alive_neighbours compass
  simp only [hm, hd, List.countP_append, countP_ite_single, List.countP_cons, List.countP_nil,
    ite_toNat]
  rw [spec_alive_offset board x y (-1) (-1) (1 ≤ x ∧ 1 ≤ y) (y * 120 + x - 121)
      (by omega) (by omega),
    spec_alive_offset board x y 0 (-1) (1 ≤ y) (y * 120 + x - 120) (by omega) (by omega),
    spec_alive_offset board x y 1 (-1) (x < 119 ∧ 1 ≤ y) (y * 120 + x - 119)
      (by omega) (by omega),
    spec_alive_offset board x y (-1) 0 (1 ≤ x) (y * 120 + x - 1) (by omega) (by omega),
    spec_alive_offset board x y 1 0 (x < 119) (y * 120 + x + 1) (by omega) (by omega),
    spec_alive_offset board x y (-1) 1 (1 ≤ x ∧ y < 79) (y * 120 + x + 119)
      (by omega) (by omega),
    spec_alive_offset board x y 0 1 (y < 79) (y * 120 + x + 120) (by omega) (by omega),
    spec_alive_offset board x y 1 1 (x < 119 ∧ y < 79) (y * 120 + x + 121)
      (by omega) (by omega)]
  omega

theorem next_alive_eq_spec (board : List Cell) (x y : Nat) (hx : x < 120) (hy : y < 80) :
    next_alive board (y * 120 + x) = spec_next_alive board x y := by
  have ha : spec_alive board x y = alive_at board (y * 120 + x) := by
    have h := spec_alive_offset board x y 0 0 True (y * 120 + x)
      ⟨fun _ => by omega, fun _ => trivial⟩ (fun _ => by omega)
    simpa using h
  unfold next_alive spec_next_alive
  rw [← count_closed_eq_spec board x y hx hy, ha]
  generalize (neighbours_closed (y * 120 + x)).countP (alive_at board) = n
  cases alive_at board (y * 120 + x)
  · rfl
  · simp only [if_true]
    rw [Bool.eq_iff_iff]
    simp only [Bool.not_eq_true', Bool.or_eq_false_iff, decide_eq_false_iff_not,
      decide_eq_true_eq]
    omega

theorem all_cells_dead_iff (board : List Cell) :
    all_cells_dead board = true ↔ ∀ i, alive_at board i = false := by
  unfold all_cells_dead alive_at
  rw [List.all_eq_true]
  constructor
  · intro h i
    cases hc : board[i]? with
    | none => rfl
    | some c => simpa using h c (List.getElem?_mem hc)
  · intro h c hc
    obtain ⟨i, hi⟩ := List.mem_iff_getElem?.mp hc
    have := h i
    rw [hi] at this
    simpa using this

theorem next_alive_of_dead (board : List Cell) (h : all_cells_dead board = true) (i : Nat) :
    next_alive board i = false := by
  rw [all_cells_dead_iff] at h
  have h0 : (neighbours_closed i).countP (alive_at board) = 0 := by
    rw [List.countP_eq_zero]
    intro j _
    simp [h j]
  simp [next_alive, h0, h i]

theorem EvolvedUpTo.grid {board buf : List Cell} (hb : GridBoard board)
    (h : EvolvedUpTo board 9600 buf) : GridBoard buf := by
  refine ⟨h.1.trans hb.1, ?_⟩
  intro y hy x hx
  have hi : y * 120 + x < 9600 := by omega
  rw [h.2, if_pos hi, ← hb.2 y hy x hx]
  cases board[y * 120 + x]? <;> rfl

theorem EvolvedUpTo.alive {board buf : List Cell} (hb : GridBoard board)
    (h : EvolvedUpTo board 9600 buf) {i : Nat} (hi : i < 9600) :
    alive_at buf i = next_alive board i := by
  obtain ⟨c, hc, -⟩ := hb.cell hi
  simp [alive_at, h.2 i, hi, hc]

/-- What `EvolveBoard` does on a board with an alive cell: the new live board is
the next generation of the old one, which moves to `buffer_board_`; nothing
else changes. -/
theorem EvolveBoard_alive (g : Game) (hb : GridBoard g.board_)
    (hd : all_cells_dead g.board_ = false) :
    ∃ buf, EvolvedUpTo g.board_ 9600 buf ∧
      g.EvolveBoard = some { g with board_ := buf, buffer_board_ := g.board_ } := by
  obtain ⟨buf, hE, hU⟩ := EvolveLoops_grid hb
  refine ⟨buf, hU, ?_⟩
  simp [Game.EvolveBoard, hd, hE]

/-- What `EvolveBoard` does on a board without alive cell. -/
theorem EvolveBoard_dead (g : Game) (hd : all_cells_dead g.board_ = true) :
    g.EvolveBoard = some { g with evolving_ := false } := by
  simp [Game.EvolveBoard, hd]

/-- Claim C1. On every live board laid out on the `120 x 80` grid, `EvolveBoard`
returns, and afterwards the cell at `(x, y)` is alive exactly when the rule of
the specification says so on the board as it was before the call: alive with 2
or 3 alive neighbours, or dead with exactly 3, the neighbours being the in-grid
cells among the 8 compass neighbours. The right-hand side reads the old board
only, so no new state depends on a value updated during the call. -/
theorem C1_evolve_rule (g : Game) (hb : GridBoard g.board_) :
    ∃ g1, g.EvolveBoard = some g1 ∧ GridBoard g1.board_ ∧
      ∀ x y : Nat, x < 120 → y < 80 →
        alive_at g1.board_ (y * 120 + x) = spec_next_alive g.board_ x y := by
  cases hd : all_cells_dead g.board_ with
  | true =>
    refine ⟨_, EvolveBoard_dead g hd, hb, ?_⟩
    intro x y hx hy
    rw [← next_alive_eq_spec _ x y hx hy, next_alive_of_dead _ hd]
    exact (all_cells_dead_iff _).mp hd _
  | false =>
    obtain ⟨buf, hU, hE⟩ := EvolveBoard_alive g hb hd
    refine ⟨_, hE, hU.grid hb, ?_⟩
    intro x y hx hy
    rw [← next_alive_eq_spec _ x y hx hy]
    exact hU.alive hb (by omega)

theorem board_of_length (alive : Nat → Bool) : (board_of alive).length = 9600 := by
  simp [board_of]

theorem board_of_getElem? (alive : Nat → Bool) (i : Nat) :
    (board_of alive)[i]? = if i < 9600 then some ⟨grid_rect i, alive i⟩ else none := by
  unfold board_of
  by_cases h : i < 9600
  · simp [h, List.getElem?_range h]
  · simp [h]
    omega

attribute [irreducible] board_of

theorem board_of_grid (alive : Nat → Bool) : GridBoard (board_of alive) := by
  refine ⟨board_of_length alive, ?_⟩
  intro y hy x hx
  have hi : y * 120 + x < 9600 := by omega
  have hm : (y * 120 + x) % 120 = x := by omega
  have hd : (y * 120 + x) / 120 = y := by omega
  simp [board_of_getElem?, hi, grid_rect, hm, hd]

theorem alive_at_board_of (alive : Nat → Bool) (i : Nat) :
    alive_at (board_of alive) i = (decide (i < 9600) && alive i) := by
  unfold alive_at
  rw [board_of_getElem?]
  by_cases h : i < 9600 <;> simp [h]

/-- A board is determined by its layout and its alive flags. -/
theorem GridBoard.eq_board_of {board : List Cell} (hb : GridBoard board) :
    board = board_of (alive_at board) := by
  apply List.ext_getElem?
  intro i
  rw [board_of_getElem?]
  by_cases h : i < 9600
  · obtain ⟨c, hc, hr⟩ := hb.cell h
    obtain ⟨r, a⟩ := c
    simp only at hr
    simp [h, hc, alive_at, grid_rect, hr]
  · rw [if_neg h, List.getElem?_eq_none]
    rw [hb.1]; omega

theorem InitializeCell_step (y x : Nat) (hy : y < 80) (hx : x < 120) (board : List Cell)
    (h : InitializedUpTo (y * 120 + x) board) :
    ∃ b1, InitializeCell y board x = some b1 ∧ InitializedUpTo (y * 120 + x + 1) b1 := by
  have hlen : y * 120 + x < board.length := by rw [h.1]; omega
  have e : board[y * 120 + x]? = some board[y * 120 + x] := List.getElem?_eq_getElem hlen
  have hm : (y * 120 + x) % 120 = x := by omega
  have hd : (y * 120 + x) / 120 = y := by omega
  refine ⟨board.set (y * 120 + x) ⟨grid_rect (y * 120 + x), false⟩, ?_, ?_, ?_⟩
  · simp [InitializeCell, write_cell, cells_width_toNat, e, grid_rect, hm, hd, cell_size_]
  · rw [List.length_set]; exact h.1
  · intro i hi
    rw [List.getElem?_set]
    by_cases hik : y * 120 + x = i
    · subst hik; simp [hlen]
    · simp only [hik, if_false]
      exact h.2 i (by omega)

/-- The call of `InitializeBoard` returns, whatever the vector held before, the all-dead
board laid out on the grid. -/
theorem InitializeBoard_eq (board : List Cell) : InitializeBoard board = some blank_board := by
  have key : ∃ r, InitializeBoard board = some r ∧ InitializedUpTo (80 * 120) r := by
    unfold InitializeBoard forRange
    simp only [cells_height_toNat, cells_width_toNat, cell_count_toNat]
    refine foldlM_range_inv (fun y b => InitializedUpTo (y * 120) b) _ 80 _ ?_ ?_
    · refine ⟨?_, fun i hi => by omega⟩
      simp [resize]
      omega
    · intro y b hy hP
      have e : (y + 1) * 120 = y * 120 + 120 := by omega
      show ∃ b1, _ ∧ InitializedUpTo ((y + 1) * 120) b1
      rw [e]
      refine foldlM_range_inv (fun x b => InitializedUpTo (y * 120 + x) b) _ 120 b hP ?_
      intro x b1 hx h1
      exact InitializeCell_step y x hy hx b1 h1
  obtain ⟨r, hr, hlen, hcells⟩ := key
  rw [hr]
  refine congrArg some ?_
  apply List.ext_getElem?
  intro i
  rw [blank_board, board_of_getElem?]
  by_cases h : i < 9600
  · rw [if_pos h]; exact hcells i (by omega)
  · rw [if_neg h, List.getElem?_eq_none]
    omega

theorem board_of_congr {f h : Nat → Bool} (e : ∀ i, i < 9600 → f i = h i) :
    board_of f = board_of h := by
  apply List.ext_getElem?
  intro i
  rw [board_of_getElem?, board_of_getElem?]
  by_cases hi : i < 9600
  · simp [hi, e i hi]
  · simp [hi]

theorem set_alive_board_of (f : Nat → Bool) (i : Nat) (hi : i < 9600) (v : Bool) :
    set_alive (board_of f) i v = some (board_of (fun j => if j = i then v else f j)) := by
  unfold set_alive
  rw [board_of_getElem?, if_pos hi]
  refine congrArg some ?_
  apply List.ext_getElem?
  intro j
  rw [List.getElem?_set, board_of_getElem?, board_of_getElem?, board_of_length]
  by_cases hij : i = j
  · subst hij; simp [hi]
  · have hji : ¬ j = i := fun h => hij h.symm
    simp [hij, hji]

theorem Game.init_with_eq (b1 b2 b3 : List Cell) :
    Game.init_with b1 b2 b3 = some start_game := by
  unfold Game.init_with
  simp only [InitializeBoard_eq]
  rfl

theorem Game.init_eq : Game.init = some start_game := Game.init_with_eq [] [] []

theorem all_cells_dead_board_of (f : Nat → Bool) :
    all_cells_dead (board_of f) = true ↔ ∀ i, i < 9600 → f i = false := by
  rw [all_cells_dead_iff]
  constructor
  · intro h i hi
    have := h i
    rw [alive_at_board_of] at this
    simpa [hi] using this
  · intro h i
    rw [alive_at_board_of]
    by_cases hi : i < 9600
    · simp [h i hi]
    · simp [hi]

/-- On a grid board with an alive cell `EvolveBoard` installs the next
generation and keeps the old board in `buffer_board_`. -/
theorem EvolveBoard_grid (g : Game) (hb : GridBoard g.board_)
    (hd : all_cells_dead g.board_ = false) :
    g.EvolveBoard =
      some { g with board_ := board_of (next_alive g.board_), buffer_board_ := g.board_ } := by
  obtain ⟨buf, hU, hE⟩ := EvolveBoard_alive g hb hd
  rw [hE]
  have e : buf = board_of (next_alive g.board_) := by
    rw [(hU.grid hb).eq_board_of]
    exact board_of_congr (fun i hi => hU.alive hb hi)
  rw [e]

theorem neighbours_closed_nodup (i : Nat) : (neighbours_closed i).Nodup := by
  unfold neighbours_closed
  by_cases h1 : 1 ≤ i % 120 <;> by_cases h2 : i % 120 < 119 <;>
    by_cases h3 : 1 ≤ i / 120 <;> by_cases h4 : i / 120 < 79 <;>
    simp [h1, h2, h3, h4] <;> omega

theorem not_mem_neighbours_closed_self (i : Nat) : i ∉ neighbours_closed i := by
  rw [mem_neighbours_closed]
  omega

theorem neighbours_closed_lt {i j : Nat} (hi : i < 9600) (hj : j ∈ neighbours_closed i) :
    j < 9600 := by
  rw [mem_neighbours_closed] at hj
  rcases hj with h | h | h | h | h | h | h | h <;> omega

/-- On a grid board the alive neighbours of a cell are counted by the alive
predicate alone. -/
theorem countP_alive_board_of (f : Nat → Bool) {i : Nat} (hi : i < 9600) :
    (neighbours_closed i).countP (alive_at (board_of f)) = (neighbours_closed i).countP f := by
  apply List.countP_congr
  intro j hj
  rw [alive_at_board_of]
  simp [neighbours_closed_lt hi hj]

/-- A lone alive cell dies and nothing is born around it. -/
theorem next_alive_single_cell (k i : Nat) (hi : i < 9600) :
    next_alive (single_cell k) i = false := by
  have hc : (neighbours_closed i).countP (alive_at (single_cell k)) =
      (neighbours_closed i).count k := by
    rw [single_cell, countP_alive_board_of _ hi, List.count, List.countP_congr]
    intro j _
    by_cases hjk : j = k <;> simp [hjk]
  have hle : (neighbours_closed i).count k ≤ 1 :=
    List.nodup_iff_count_le_one.mp (neighbours_closed_nodup i) k
  unfold next_alive
  rw [hc, single_cell, alive_at_board_of]
  by_cases hik : i = k
  · subst hik
    have h0 : (neighbours_closed i).count i = 0 :=
      List.count_eq_zero.mpr (not_mem_neighbours_closed_self i)
    simp [hi, h0]
  · have h3 : ¬ (neighbours_closed i).count k = 3 := by omega
    simp [hik, h3]

theorem all_cells_dead_single_cell (k : Nat) (hk : k < 9600) :
    all_cells_dead (single_cell k) = false := by
  rw [← Bool.not_eq_true, single_cell, all_cells_dead_board_of]
  intro h
  simpa using h k hk

theorem all_cells_dead_blank : all_cells_dead blank_board = true := by
  rw [blank_board, all_cells_dead_board_of]
  intro _ _; rfl

/-- One evolution step empties a board with a single alive cell and leaves
`evolving_` as it was. -/
theorem EvolveBoard_single_cell (g : Game) (k : Nat) (hk : k < 9600)
    (hg : g.board_ = single_cell k) :
    g.EvolveBoard = some { g with board_ := blank_board, buffer_board_ := single_cell k } := by
  have hb : GridBoard g.board_ := by rw [hg]; exact board_of_grid _
  rw [EvolveBoard_grid g hb (by rw [hg]; exact all_cells_dead_single_cell k hk), hg]
  have e : board_of (next_alive (single_cell k)) = blank_board :=
    board_of_congr (fun i hi => next_alive_single_cell k i hi)
  rw [e]

theorem all_cells_dead_eq_false_iff (board : List Cell) :
    all_cells_dead board = false ↔ ∃ c ∈ board, c.alive_ = true := by
  rw [← Bool.not_eq_true, all_cells_dead, List.all_eq_true]
  simp

theorem all_cells_dead_eq_true_iff (board : List Cell) :
    all_cells_dead board = true ↔ ∀ c ∈ board, c.alive_ = false := by
  rw [all_cells_dead, List.all_eq_true]
  simp

/-- A key event goes straight to the key branch: the pointer block does
nothing for it, whether or not the simulation is running. -/
theorem HandleEvent_key (g : Game) (mouse : SDL_Point) (b : Button) (sym : Keycode) :
    g.HandleEvent mouse ⟨.SDL_KEYDOWN, b, sym⟩ =
      some (OnKeyDown { g with mouse_position_ := mouse } sym) := by
  unfold Game.HandleEvent OnPointer
  cases g.evolving_ <;> simp

theorem size_t_of_int_small (z : Int) (h0 : 0 ≤ z) (h1 : z < 9223372036854775808) :
    size_t_of_int z = z.toNat := by
  unfold size_t_of_int
  have : z % 2 ^ 64 = z := Int.emod_eq_of_lt h0 (by omega)
  rw [this]

theorem mouse_index_in_grid (p : SDL_Point) (hx0 : 0 ≤ p.x) (hx1 : p.x < 1920) (hy0 : 0 ≤ p.y)
    (hy1 : p.y < 1280) :
    mouse_index p = some ((p.y / 16).toNat * 120 + (p.x / 16).toNat) := by
  have ey : Int.tdiv p.y 16 = p.y / 16 := Int.tdiv_eq_ediv hy0 (by decide)
  have ex : Int.tdiv p.x 16 = p.x / 16 := Int.tdiv_eq_ediv hx0 (by decide)
  have h1 : INT_MIN ≤ p.y / 16 * 120 ∧ p.y / 16 * 120 ≤ INT_MAX := by
    simp only [INT_MIN, INT_MAX]; omega
  have h2 : INT_MIN ≤ p.y / 16 * 120 + p.x / 16 ∧ p.y / 16 * 120 + p.x / 16 ≤ INT_MAX := by
    simp only [INT_MIN, INT_MAX]; omega
  unfold mouse_index int_checked
  rw [cells_width_eq]
  simp only [cell_size_, ey, ex]
  rw [if_pos h1]
  simp only []
  rw [if_pos h2]
  simp only []
  rw [size_t_of_int_small _ (by omega) (by omega)]
  refine congrArg some ?_
  omega

/-- A left press while editing, with the pointer formula yielding the in-range
index `i`: the cell `i` is toggled in the live board, the snapshot is the
resulting live board and the paint value is the new state of the cell. -/
theorem HandleEvent_left_press (g : Game) (mouse : SDL_Point) (f : Nat → Bool) (i : Nat)
    (hev : g.evolving_ = false) (hb : g.board_ = board_of f)
    (hm : mouse_index mouse = some i) (hi : i < 9600) :
    g.HandleEvent mouse left_press =
      some { g with
        mouse_position_ := mouse
        mouse_left_pressed_ := true
        setting_walls_ := !f i
        board_ := board_of (fun j => if j = i then !f i else f j)
        init_board_ := board_of (fun j => if j = i then !f i else f j) } := by
  unfold Game.HandleEvent OnPointer OnLeftButtonDown
  simp [left_press, hev, hb, hm, board_of_getElem?, hi, set_alive_board_of]

theorem HandleEvent_left_release (g : Game) (mouse : SDL_Point) (hev : g.evolving_ = false) :
    g.HandleEvent mouse left_release =
      some { g with
        mouse_position_ := mouse
        mouse_left_pressed_ := false
        init_board_ := g.board_ } := by
  unfold Game.HandleEvent OnPointer OnLeftButtonUp
  simp [left_release, hev]

theorem HandleEvent_drag (g : Game) (mouse : SDL_Point) (f : Nat → Bool) (i : Nat)
    (hev : g.evolving_ = false) (hp : g.mouse_left_pressed_ = true) (hb : g.board_ = board_of f)
    (hm : mouse_index mouse = some i) (hi : i < 9600) :
    g.HandleEvent mouse mouse_motion =
      some { g with
        mouse_position_ := mouse
        board_ := board_of (fun j => if j = i then g.setting_walls_ else f j)
        init_board_ := board_of (fun j => if j = i then g.setting_walls_ else f j) } := by
  unfold Game.HandleEvent OnPointer OnMouseMotion
  simp [mouse_motion, hev, hp, hb, hm, set_alive_board_of, hi]

theorem mouse_index_origin : mouse_index ⟨0, 0⟩ = some 0 := by decide

theorem start_game_eq : start_game = play 0 false false blank_board blank_board blank_board :=
  rfl

theorem single_cell_eq_toggle :
    board_of (fun j => if j = 0 then !(fun _ => false) 0 else (fun _ => false) j) =
      single_cell 0 := by
  unfold single_cell
  apply board_of_congr
  intro i _
  by_cases h : i = 0 <;> simp [h]

theorem play_press :
    (play 0 false false blank_board blank_board blank_board).HandleEvent ⟨0, 0⟩ left_press =
      some (play 0 true false (single_cell 0) blank_board (single_cell 0)) := by
  rw [HandleEvent_left_press _ _ (fun _ => false) 0 rfl rfl mouse_index_origin (by decide),
    single_cell_eq_toggle]
  rfl

theorem play_release :
    (play 0 true false (single_cell 0) blank_board (single_cell 0)).HandleEvent ⟨0, 0⟩
        left_release =
      some (play 0 false false (single_cell 0) blank_board (single_cell 0)) := by
  rw [HandleEvent_left_release _ _ rfl]
  rfl

theorem play_start :
    (play 0 false false (single_cell 0) blank_board (single_cell 0)).HandleEvent ⟨0, 0⟩
        (key_down .SDLK_s) =
      some (play 0 false true (single_cell 0) blank_board (single_cell 0)) := by
  rw [key_down, HandleEvent_key]
  have h : all_cells_dead (single_cell 0) = false := all_cells_dead_single_cell 0 (by decide)
  simp [OnKeyDown, play, h]

/-- The condition of `Tick` is defined whenever the counter is above `INT_MIN`,
and then it is the Boolean the source line reads. -/
theorem evolve_due_eq (g : Game) (h : INT_MIN < g.ticks_) :
    evolve_due g =
      some (g.evolving_ && (g.evolve_speed_ == 0 || Int.tmod g.ticks_ g.evolve_speed_ == 0)) := by
  unfold evolve_due int_rem
  cases g.evolving_
  · rfl
  · by_cases hs : g.evolve_speed_ = 0
    · simp [hs]
    · have hne : ¬ (g.ticks_ = INT_MIN ∧ g.evolve_speed_ = -1) := fun hc => by
        rw [hc.1] at h; exact lt_irrefl _ h
      simp [hs, hne]

theorem Tick_eq (g : Game) (h1 : INT_MIN ≤ g.ticks_) (h2 : g.ticks_ + 1 ≤ INT_MAX) :
    g.Tick =
      if g.evolving_ && (g.evolve_speed_ == 0 ||
          Int.tmod (g.ticks_ + 1) g.evolve_speed_ == 0) then
        Game.EvolveBoard { g with ticks_ := g.ticks_ + 1 }
      else some { g with ticks_ := g.ticks_ + 1 } := by
  have h0 : INT_MIN ≤ g.ticks_ + 1 := by omega
  have hd := evolve_due_eq { g with ticks_ := g.ticks_ + 1 } (by show INT_MIN < g.ticks_ + 1; omega)
  unfold Game.Tick int_checked
  rw [if_pos ⟨h0, h2⟩]
  simp only [hd]
  cases (g.evolving_ && (g.evolve_speed_ == 0 || Int.tmod (g.ticks_ + 1) g.evolve_speed_ == 0)) <;>
    rfl

/-- A tick that returns either only counts or counts and calls `EvolveBoard`. -/
theorem Tick_cases {g g1 : Game} (h : g.Tick = some g1) :
    g1 = { g with ticks_ := g.ticks_ + 1 } ∨
      Game.EvolveBoard { g with ticks_ := g.ticks_ + 1 } = some g1 := by
  unfold Game.Tick int_checked at h
  split at h
  · contradiction
  · rename_i t ht
    split at ht
    · simp only [Option.some.injEq] at ht
      subst ht
      simp only at h
      split at h
      · contradiction
      · exact Or.inr h
      · simp only [Option.some.injEq] at h
        exact Or.inl h.symm
    · contradiction

/-- While the tick counter is not a multiple of the speed the tick only counts. -/
theorem play_wait (t : Int) (h0 : 0 ≤ t) (h9 : t < 9) (board buffer snapshot : List Cell) :
    (play t false true board buffer snapshot).Tick =
      some (play (t + 1) false true board buffer snapshot) := by
  rw [Tick_eq _ (by simp only [play, INT_MIN]; omega) (by simp only [play, INT_MAX]; omega)]
  have hm : Int.tmod (t + 1) 10 ≠ 0 := by
    rw [Int.tmod_eq_emod (by omega) (by decide)]
    omega
  simp [play, hm]

theorem play_wait_run (n : Nat) (t : Int) (h0 : 0 ≤ t) (h9 : t + n ≤ 9)
    (board buffer snapshot : List Cell) :
    (play t false true board buffer snapshot).run (List.replicate n .tick) =
      some (play (t + n) false true board buffer snapshot) := by
  induction n generalizing t with
  | zero => simp [Game.run]
  | succ k ih =>
    rw [List.replicate_succ, Game.run, Game.step, play_wait t h0 (by omega)]
    simp only []
    rw [ih (t + 1) (by omega) (by push_cast at h9; omega)]
    push_cast
    rw [add_assoc, add_comm 1 (k : Int)]

/-- The tenth tick evolves the board: the lone cell dies, `evolving_` stays set. -/
theorem play_tenth_tick :
    (play 9 false true (single_cell 0) blank_board (single_cell 0)).Tick =
      some (play 10 false true blank_board (single_cell 0) (single_cell 0)) := by
  rw [Tick_eq _ (by decide) (by decide)]
  have hc : ((play 9 false true (single_cell 0) blank_board (single_cell 0)).evolving_ &&
      ((play 9 false true (single_cell 0) blank_board (single_cell 0)).evolve_speed_ == 0 ||
        Int.tmod ((play 9 false true (single_cell 0) blank_board (single_cell 0)).ticks_ + 1)
          (play 9 false true (single_cell 0) blank_board (single_cell 0)).evolve_speed_ == 0)) =
      true := by decide
  rw [if_pos hc, EvolveBoard_single_cell _ 0 (by decide) rfl]
  rfl

theorem run_append (g : Game) (l1 l2 : List Input) :
    g.run (l1 ++ l2) = (g.run l1).bind (fun g1 => g1.run l2) := by
  induction l1 generalizing g with
  | nil => rfl
  | cons i rest ih =>
    simp only [List.cons_append, Game.run]
    cases g.step i with
    | none => rfl
    | some g1 => exact ih g1

theorem run_nil (g : Game) : g.run [] = some g := rfl

theorem run_event {g g1 : Game} {mouse : SDL_Point} {e : SDL_Event} (rest : List Input)
    (h : g.HandleEvent mouse e = some g1) : g.run (.event mouse e :: rest) = g1.run rest := by
  simp only [Game.run, Game.step, h]

theorem run_tick {g g1 : Game} (rest : List Input) (h : g.Tick = some g1) :
    g.run (.tick :: rest) = g1.run rest := by
  simp only [Game.run, Game.step, h]

theorem play_paint_and_start :
    start_game.run paint_and_start =
      some (play 0 false true (single_cell 0) blank_board (single_cell 0)) := by
  rw [start_game_eq, paint_and_start, run_event _ play_press, run_event _ play_release,
    run_event _ play_start, run_nil]

/-- The example run up to the ninth tick: one cell alive, simulation running. -/
theorem play_nine_ticks :
    start_game.run (paint_and_start ++ List.replicate 9 .tick) =
      some (play 9 false true (single_cell 0) blank_board (single_cell 0)) := by
  rw [run_append, play_paint_and_start, Option.some_bind,
    play_wait_run 9 0 (le_refl 0) (by decide)]
  rfl

/-- The example run after the tenth tick: board empty, simulation still running. -/
theorem play_ten_ticks :
    start_game.run (paint_and_start ++ (List.replicate 9 .tick ++ [.tick])) =
      some (play 10 false true blank_board (single_cell 0) (single_cell 0)) := by
  rw [← List.append_assoc, run_append, play_nine_ticks, Option.some_bind,
    run_tick _ play_tenth_tick, run_nil]

theorem Reachable.after_run {g g1 : Game} (h : Reachable g) (l : List Input) (hr : g.run l = some g1) :
    Reachable g1 := by
  induction l generalizing g with
  | nil =>
    simp only [Game.run, Option.some.injEq] at hr
    exact hr ▸ h
  | cons i rest ih =>
    simp only [Game.run] at hr
    cases hs : g.step i with
    | none => simp [hs] at hr
    | some g2 =>
      rw [hs] at hr
      refine ih ?_ hr
      cases i with
      | event mouse e => exact Reachable.event mouse e h hs
      | tick => exact Reachable.tick h hs

/-- A tick on a board without alive cell leaves the board as it is. -/
theorem Tick_dead (g : Game) (hd : all_cells_dead g.board_ = true) (h1 : INT_MIN ≤ g.ticks_)
    (h2 : g.ticks_ + 1 ≤ INT_MAX) :
    ∃ g1, g.Tick = some g1 ∧ g1.board_ = g.board_ ∧ g1.ticks_ = g.ticks_ + 1 := by
  rw [Tick_eq g h1 h2]
  split
  · exact ⟨_, EvolveBoard_dead _ hd, rfl, rfl⟩
  · exact ⟨_, rfl, rfl, rfl⟩

theorem ticks_dead (n : Nat) (g : Game) (hd : all_cells_dead g.board_ = true)
    (h1 : INT_MIN ≤ g.ticks_) (h2 : g.ticks_ + n ≤ INT_MAX) :
    ∃ g2, g.run (List.replicate n .tick) = some g2 ∧ g2.board_ = g.board_ := by
  induction n generalizing g with
  | zero => exact ⟨g, rfl, rfl⟩
  | succ k ih =>
    push_cast at h2
    obtain ⟨g1, hT, hb, ht⟩ := Tick_dead g hd (by omega) (by omega)
    obtain ⟨g2, hr, hb2⟩ := ih g1 (by rw [hb]; exact hd) (by omega) (by omega)
    refine ⟨g2, ?_, hb2.trans hb⟩
    rw [List.replicate_succ, run_tick _ hT, hr]

/-- Claim C4 (as amended). When `EvolveBoard`, called while the simulation runs on
a grid board with an alive cell, leaves the live board without alive cell,
`evolving_` is still true when that call returns. It is the next call of
`EvolveBoard` that sets `evolving_` to false, leaving the state otherwise
unchanged, and from the moment the board is empty no tick changes it. -/
theorem C4_auto_stop_next_step (g : Game) (hb : GridBoard g.board_) (hrun : g.evolving_ = true)
    (hne : ∃ c ∈ g.board_, c.alive_ = true) :
    ∃ g1, g.EvolveBoard = some g1 ∧ g1.evolving_ = true ∧
      ((∀ c ∈ g1.board_, c.alive_ = false) →
        g1.EvolveBoard = some { g1 with evolving_ := false } ∧
        ∀ n : Nat, INT_MIN ≤ g1.ticks_ → g1.ticks_ + n ≤ INT_MAX →
          ∃ g2, g1.run (List.replicate n .tick) = some g2 ∧ g2.board_ = g1.board_) := by
  have hd : all_cells_dead g.board_ = false := (all_cells_dead_eq_false_iff _).mpr hne
  refine ⟨_, EvolveBoard_grid g hb hd, hrun, ?_⟩
  intro hdead
  have hd1 := (all_cells_dead_eq_true_iff _).mpr hdead
  exact ⟨EvolveBoard_dead _ hd1, fun n h1 h2 => ticks_dead n _ hd1 h1 h2⟩

theorem single_cell_has_alive : ∃ c ∈ single_cell 0, c.alive_ = true :=
  (all_cells_dead_eq_false_iff _).mp (all_cells_dead_single_cell 0 (by decide))

/-- Witness for C4: the running simulation on the board with one alive cell. -/
theorem C4_auto_stop_next_step_witness :
    GridBoard (play 10 false true (single_cell 0) blank_board (single_cell 0)).board_ ∧
    (play 10 false true (single_cell 0) blank_board (single_cell 0)).evolving_ = true ∧
    (∃ c ∈ (play 10 false true (single_cell 0) blank_board (single_cell 0)).board_,
      c.alive_ = true) ∧
    ∃ g1, (play 10 false true (single_cell 0) blank_board (single_cell 0)).EvolveBoard =
        some g1 ∧ g1.evolving_ = true ∧
      ((∀ c ∈ g1.board_, c.alive_ = false) →
        g1.EvolveBoard = some { g1 with evolving_ := false } ∧
        ∀ n : Nat, INT_MIN ≤ g1.ticks_ → g1.ticks_ + n ≤ INT_MAX →
          ∃ g2, g1.run (List.replicate n .tick) = some g2 ∧ g2.board_ = g1.board_) :=
  ⟨board_of_grid _, rfl, single_cell_has_alive,
    C4_auto_stop_next_step _ (board_of_grid _) rfl single_cell_has_alive⟩

/-- Claim C4, counterexample. From the constructed state: click the cell at the
origin, press `s`, let nine ticks pass: the simulation runs on a board with one
alive cell. The tenth tick calls `EvolveBoard`, which empties the board, and
`evolving_` is still true afterwards. -/
theorem C4_counterexample :
    (Game.init.bind (fun g => g.run (paint_and_start ++ List.replicate 9 .tick))).map
        (fun g => (g.evolving_, all_cells_dead g.board_)) = some (true, false) ∧
    (Game.init.bind (fun g => g.run (paint_and_start ++ (List.replicate 9 .tick ++ [.tick])))).map
        (fun g => (g.evolving_, all_cells_dead g.board_)) = some (true, true) ∧
    ((play 10 false true (single_cell 0) blank_board (single_cell 0)).EvolveBoard).map
        (fun g => (g.evolving_, all_cells_dead g.board_)) = some (true, true) := by
  refine ⟨?_, ?_, ?_⟩
  · rw [Game.init_eq, Option.some_bind, play_nine_ticks, Option.map_some']
    exact congrArg some (congrArg (Prod.mk true) (all_cells_dead_single_cell 0 (by decide)))
  · rw [Game.init_eq, Option.some_bind, play_ten_ticks, Option.map_some']
    exact congrArg some (congrArg (Prod.mk true) all_cells_dead_blank)
  · rw [EvolveBoard_single_cell _ 0 (by decide) rfl, Option.map_some']
    exact congrArg some (congrArg (Prod.mk true) all_cells_dead_blank)

/-- Claim C5 (as amended). While the simulation runs, the start/stop key (`s`)
stops it (`evolving_` becomes false) exactly when the live board has at least
one alive cell; on a board without alive cell the key is ignored and
`evolving_` stays true. -/
theorem C5_stop_key (g : Game) (mouse : SDL_Point) (b : Button) (hrun : g.evolving_ = true) :
    ∃ g1, g.HandleEvent mouse ⟨.SDL_KEYDOWN, b, .SDLK_s⟩ = some g1 ∧
      (g1.evolving_ = false ↔ ∃ c ∈ g.board_, c.alive_ = true) := by
  refine ⟨_, HandleEvent_key g mouse b .SDLK_s, ?_⟩
  rw [← all_cells_dead_eq_false_iff]
  cases hd : all_cells_dead g.board_ <;> simp [OnKeyDown, hd, hrun]

/-- Witness for C5: the stop key in the running simulation with one alive cell. -/
theorem C5_stop_key_witness :
    (play 9 false true (single_cell 0) blank_board (single_cell 0)).evolving_ = true ∧
    ∃ g1, (play 9 false true (single_cell 0) blank_board (single_cell 0)).HandleEvent ⟨0, 0⟩
        ⟨.SDL_KEYDOWN, .other, .SDLK_s⟩ = some g1 ∧
      (g1.evolving_ = false ↔
        ∃ c ∈ (play 9 false true (single_cell 0) blank_board (single_cell 0)).board_,
          c.alive_ = true) :=
  ⟨rfl, C5_stop_key _ ⟨0, 0⟩ .other rfl⟩

theorem play_stop_ignored :
    (play 10 false true blank_board (single_cell 0) (single_cell 0)).HandleEvent ⟨0, 0⟩
        (key_down .SDLK_s) =
      some (play 10 false true blank_board (single_cell 0) (single_cell 0)) := by
  rw [key_down, HandleEvent_key]
  simp [OnKeyDown, play, all_cells_dead_blank]

/-- Claim C5, counterexample. After the run of the C4 example (one cell painted,
simulation started, ten ticks) the simulation is running on an empty board;
the `s` key handled in that state leaves `evolving_` true. -/
theorem C5_counterexample :
    (Game.init.bind (fun g =>
        g.run (paint_and_start ++ (List.replicate 9 .tick ++ [.tick])))).map
      (fun g => g.evolving_) = some true ∧
    (Game.init.bind (fun g =>
        g.run ((paint_and_start ++ (List.replicate 9 .tick ++ [.tick])) ++
          [.event ⟨0, 0⟩ (key_down .SDLK_s)]))).map
      (fun g => g.evolving_) = some true := by
  refine ⟨?_, ?_⟩
  · rw [Game.init_eq, Option.some_bind, play_ten_ticks]
    rfl
  · rw [Game.init_eq, Option.some_bind, run_append, play_ten_ticks, Option.some_bind,
      run_event _ play_stop_ignored, run_nil]
    rfl

/-- A drag to a position whose index lies beyond the board indexes the vector
out of range. -/
theorem HandleEvent_drag_out (g : Game) (mouse : SDL_Point) (f : Nat → Bool) (i : Nat)
    (hev : g.evolving_ = false) (hp : g.mouse_left_pressed_ = true) (hb : g.board_ = board_of f)
    (hm : mouse_index mouse = some i) (hi : 9600 ≤ i) :
    g.HandleEvent mouse mouse_motion = none := by
  have hn : ¬ i < 9600 := by omega
  unfold Game.HandleEvent OnPointer OnMouseMotion
  simp [mouse_motion, hev, hp, hb, hm, set_alive, board_of_getElem?, hn]

theorem mouse_index_below : mouse_index ⟨0, 1280⟩ = some 9600 := by decide

theorem mouse_index_right : mouse_index ⟨1920, 0⟩ = some 120 := by decide

theorem mouse_index_left : mouse_index ⟨-16, 0⟩ = some 18446744073709551615 := by decide

/-- Claim C6, failing inputs. With the left button held after a click on the cell
at the origin, a motion event polled with the pointer at `(0, 1280)`, just
below the grid, indexes `board_[9600]`, outside the `9600`-cell vector; with
the pointer at `(-16, 0)`, left of the grid, the index is `-1` converted to
`std::size_t`; with the pointer at `(1920, 0)`, right of the grid, the cell
written is index `120`, the first cell of the second row. -/
theorem C6_pointer_outside_grid :
    Game.init.bind (fun g =>
        g.run [.event ⟨0, 0⟩ left_press, .event ⟨0, 1280⟩ mouse_motion]) = none ∧
    Game.init.bind (fun g =>
        g.run [.event ⟨0, 0⟩ left_press, .event ⟨-16, 0⟩ mouse_motion]) = none ∧
    (Game.init.bind (fun g =>
        g.run [.event ⟨0, 0⟩ left_press, .event ⟨1920, 0⟩ mouse_motion])).map
      (fun g => g.board_) = some (board_of (fun j => decide (j = 0 ∨ j = 120))) := by
  have hs : (single_cell 0) = board_of (fun j => decide (j = 0)) := by rw [single_cell]
  refine ⟨?_, ?_, ?_⟩
  · rw [Game.init_eq, Option.some_bind, start_game_eq, run_event _ play_press]
    have h := HandleEvent_drag_out (play 0 true false (single_cell 0) blank_board (single_cell 0))
      ⟨0, 1280⟩ _ 9600 rfl rfl hs mouse_index_below (by decide)
    simp only [Game.run, Game.step, h]
  · rw [Game.init_eq, Option.some_bind, start_game_eq, run_event _ play_press]
    have h := HandleEvent_drag_out (play 0 true false (single_cell 0) blank_board (single_cell 0))
      ⟨-16, 0⟩ _ _ rfl rfl hs mouse_index_left (by decide)
    simp only [Game.run, Game.step, h]
  · rw [Game.init_eq, Option.some_bind, start_game_eq, run_event _ play_press]
    have h := HandleEvent_drag (play 0 true false (single_cell 0) blank_board (single_cell 0))
      ⟨1920, 0⟩ _ 120 rfl rfl hs mouse_index_right (by decide)
    rw [run_event _ h, run_nil, Option.map_some']
    refine congrArg some ?_
    show board_of _ = board_of _
    apply board_of_congr
    intro i _
    by_cases h0 : i = 0 <;> by_cases h1 : i = 120 <;> simp [h0, h1, play]

theorem OnLeftButtonDown_speed {g g1 : Game} (h : OnLeftButtonDown g = some g1) :
    g1.evolve_speed_ = g.evolve_speed_ := by
  unfold OnLeftButtonDown set_alive at h
  simp only at h
  repeat' split at h
  all_goals first
    | contradiction
    | (simp only [Option.some.injEq] at h; subst h; rfl)

theorem OnMouseMotion_speed {g g1 : Game} (h : OnMouseMotion g = some g1) :
    g1.evolve_speed_ = g.evolve_speed_ := by
  unfold OnMouseMotion set_alive at h
  simp only at h
  repeat' split at h
  all_goals first
    | contradiction
    | (simp only [Option.some.injEq] at h; subst h; rfl)

theorem OnPointer_speed {g g1 : Game} {e : SDL_Event} (h : OnPointer g e = some g1) :
    g1.evolve_speed_ = g.evolve_speed_ := by
  unfold OnPointer at h
  simp only at h
  split at h
  · contradiction
  · rename_i g2 hg2
    have h2 : g2.evolve_speed_ = g.evolve_speed_ := by
      repeat' split at hg2
      all_goals first
        | exact OnLeftButtonDown_speed hg2
        | (simp only [Option.some.injEq] at hg2; subst hg2; rfl)
    split at h
    · exact (OnMouseMotion_speed h).trans h2
    · simp only [Option.some.injEq] at h; subst h; exact h2

theorem EvolveBoard_speed {g g1 : Game} (h : g.EvolveBoard = some g1) :
    g1.evolve_speed_ = g.evolve_speed_ := by
  unfold Game.EvolveBoard at h
  simp only at h
  repeat' split at h
  all_goals first
    | contradiction
    | (simp only [Option.some.injEq] at h; subst h; rfl)

theorem Tick_speed {g g1 : Game} (h : g.Tick = some g1) :
    g1.evolve_speed_ = g.evolve_speed_ := by
  rcases Tick_cases h with h1 | h1
  · rw [h1]
  · exact (EvolveBoard_speed h1).trans rfl

theorem HandleEvent_cases {g g1 : Game} {mouse : SDL_Point} {e : SDL_Event}
    (h : g.HandleEvent mouse e = some g1) :
    g1.evolve_speed_ = g.evolve_speed_ ∨
      ∃ g2, g2.evolve_speed_ = g.evolve_speed_ ∧ g1 = OnKeyDown g2 e.sym := by
  unfold Game.HandleEvent at h
  simp only at h
  split at h
  · simp only [Option.some.injEq] at h; subst h; exact Or.inl rfl
  · split at h
    · contradiction
    · rename_i g2 hg2
      have h2 : g2.evolve_speed_ = g.evolve_speed_ := by
        split at hg2
        · exact (OnPointer_speed hg2).trans rfl
        · simp only [Option.some.injEq] at hg2; subst hg2; rfl
      split at h
      · simp only [Option.some.injEq] at h
        exact Or.inr ⟨g2, h2, h.symm⟩
      · simp only [Option.some.injEq] at h; subst h; exact Or.inl h2

theorem OnKeyDown_speed (g : Game) (sym : Keycode) (h : SpeedOk g) : SpeedOk (OnKeyDown g sym) := by
  obtain ⟨h0, h1, h5⟩ := h
  unfold SpeedOk OnKeyDown
  cases sym <;> simp only
  · split <;> exact ⟨h0, h1, h5⟩
  · exact ⟨h0, h1, h5⟩
  · split <;> exact ⟨h0, h1, h5⟩
  · split
    · refine ⟨?_, ?_, ?_⟩ <;> simp only <;> omega
    · exact ⟨h0, h1, h5⟩
  · split
    · refine ⟨?_, ?_, ?_⟩ <;> simp only <;> omega
    · exact ⟨h0, h1, h5⟩
  · exact ⟨h0, h1, h5⟩

theorem Reachable.speed_ok {g : Game} (h : Reachable g) : SpeedOk g := by
  induction h with
  | init hi =>
    rw [Game.init_eq] at hi
    cases hi
    exact ⟨by decide, by decide, by decide⟩
  | event mouse e _ hs ih =>
    rcases HandleEvent_cases hs with h1 | ⟨g2, h2, h1⟩
    · unfold SpeedOk; rw [h1]; exact ih
    · rw [h1]
      apply OnKeyDown_speed
      unfold SpeedOk; rw [h2]; exact ih
  | tick _ hs ih =>
    unfold SpeedOk; rw [Tick_speed hs]; exact ih

/-- Claim C7. While editing (`evolving_` false) the start key (`s`) sets
`evolving_` to true exactly when the live board has at least one alive cell;
when every cell is dead the event changes nothing of the state: the result is
the old state with only the polled pointer position recorded. -/
theorem C7_start_key (g : Game) (mouse : SDL_Point) (b : Button) (hed : g.evolving_ = false) :
    ∃ g1, g.HandleEvent mouse ⟨.SDL_KEYDOWN, b, .SDLK_s⟩ = some g1 ∧
      (g1.evolving_ = true ↔ ∃ c ∈ g.board_, c.alive_ = true) ∧
      ((∀ c ∈ g.board_, c.alive_ = false) → g1 = { g with mouse_position_ := mouse }) := by
  refine ⟨_, HandleEvent_key g mouse b .SDLK_s, ?_, ?_⟩
  · rw [← all_cells_dead_eq_false_iff]
    cases hd : all_cells_dead g.board_ <;> simp [OnKeyDown, hd, hed]
  · intro hdead
    have hd := (all_cells_dead_eq_true_iff _).mpr hdead
    simp [OnKeyDown, hd]

/-- Witness for C7: the start key in the constructed state, whose board is empty. -/
theorem C7_start_key_witness :
    start_game.evolving_ = false ∧
    ∃ g1, start_game.HandleEvent ⟨3, 4⟩ ⟨.SDL_KEYDOWN, .other, .SDLK_s⟩ = some g1 ∧
      (g1.evolving_ = true ↔ ∃ c ∈ start_game.board_, c.alive_ = true) ∧
      ((∀ c ∈ start_game.board_, c.alive_ = false) →
        g1 = { start_game with mouse_position_ := ⟨3, 4⟩ }) :=
  ⟨rfl, C7_start_key start_game ⟨3, 4⟩ .other rfl⟩

/-- Claim C8. On a live board without alive cell `EvolveBoard` changes nothing
but `evolving_`, which it sets to false: the live board and the snapshot board
are as before. On a board with an alive cell it leaves `evolving_` (and the
snapshot board) as they were. In both cases it returns. -/
theorem C8_evolve_short_circuit (g : Game) (hb : GridBoard g.board_) :
    ∃ g1, g.EvolveBoard = some g1 ∧
      ((∀ c ∈ g.board_, c.alive_ = false) → g1 = { g with evolving_ := false }) ∧
      ((∃ c ∈ g.board_, c.alive_ = true) →
        g1.evolving_ = g.evolving_ ∧ g1.init_board_ = g.init_board_) := by
  cases hd : all_cells_dead g.board_ with
  | true =>
    refine ⟨_, EvolveBoard_dead g hd, fun _ => rfl, ?_⟩
    intro hne
    rw [← all_cells_dead_eq_false_iff, hd] at hne
    cases hne
  | false =>
    refine ⟨_, EvolveBoard_grid g hb hd, ?_, fun _ => ⟨rfl, rfl⟩⟩
    intro hdead
    rw [← all_cells_dead_eq_true_iff, hd] at hdead
    cases hdead

/-- Witness for C8: `EvolveBoard` in the constructed state. -/
theorem C8_evolve_short_circuit_witness :
    GridBoard start_game.board_ ∧
    ∃ g1, start_game.EvolveBoard = some g1 ∧
      ((∀ c ∈ start_game.board_, c.alive_ = false) →
        g1 = { start_game with evolving_ := false }) ∧
      ((∃ c ∈ start_game.board_, c.alive_ = true) →
        g1.evolving_ = start_game.evolving_ ∧ g1.init_board_ = start_game.init_board_) :=
  ⟨board_of_grid _, C8_evolve_short_circuit start_game (board_of_grid _)⟩

/-- Claim C9. In every state reachable from the constructed state by input events
and ticks, `0 ≤ evolve_speed_ ≤ 60`. In such a state the DOWN key adds 5 when
the result stays within 60 and otherwise leaves `evolve_speed_` unchanged, and
the UP key subtracts 5 when the result stays at or above 0 and otherwise leaves
it unchanged. -/
theorem C9_speed_bounds (g : Game) (h : Reachable g) :
    0 ≤ g.evolve_speed_ ∧ g.evolve_speed_ ≤ 60 ∧
      (∀ (mouse : SDL_Point) (b : Button),
        ∃ g1, g.HandleEvent mouse ⟨.SDL_KEYDOWN, b, .SDLK_DOWN⟩ = some g1 ∧
          g1.evolve_speed_ =
            if g.evolve_speed_ + 5 ≤ 60 then g.evolve_speed_ + 5 else g.evolve_speed_) ∧
      (∀ (mouse : SDL_Point) (b : Button),
        ∃ g1, g.HandleEvent mouse ⟨.SDL_KEYDOWN, b, .SDLK_UP⟩ = some g1 ∧
          g1.evolve_speed_ =
            if 0 ≤ g.evolve_speed_ - 5 then g.evolve_speed_ - 5 else g.evolve_speed_) := by
  obtain ⟨h0, h1, h5⟩ := h.speed_ok
  refine ⟨h0, h1, ?_, ?_⟩
  · intro mouse b
    refine ⟨_, HandleEvent_key g mouse b .SDLK_DOWN, ?_⟩
    simp only [OnKeyDown]
    by_cases hlt : g.evolve_speed_ < 60
    · have hle : g.evolve_speed_ + 5 ≤ 60 := by omega
      rw [if_pos hlt, if_pos hle]
    · have hle : ¬ g.evolve_speed_ + 5 ≤ 60 := by omega
      rw [if_neg hlt, if_neg hle]
  · intro mouse b
    refine ⟨_, HandleEvent_key g mouse b .SDLK_UP, ?_⟩
    simp only [OnKeyDown]
    by_cases hge : g.evolve_speed_ - 5 ≥ 0
    · rw [if_pos hge, if_pos hge]
    · rw [if_neg hge, if_neg hge]

/-- Witness for C9: the state reached by the example run of ten ticks. -/
theorem C9_speed_bounds_witness :
    Reachable (play 10 false true blank_board (single_cell 0) (single_cell 0)) ∧
    (0 ≤ (play 10 false true blank_board (single_cell 0) (single_cell 0)).evolve_speed_ ∧
      (play 10 false true blank_board (single_cell 0) (single_cell 0)).evolve_speed_ ≤ 60 ∧
      (∀ (mouse : SDL_Point) (b : Button),
        ∃ g1, (play 10 false true blank_board (single_cell 0) (single_cell 0)).HandleEvent mouse
            ⟨.SDL_KEYDOWN, b, .SDLK_DOWN⟩ = some g1 ∧
          g1.evolve_speed_ =
            if (play 10 false true blank_board (single_cell 0) (single_cell 0)).evolve_speed_ + 5
                ≤ 60 then
              (play 10 false true blank_board (single_cell 0) (single_cell 0)).evolve_speed_ + 5
            else (play 10 false true blank_board (single_cell 0) (single_cell 0)).evolve_speed_) ∧
      (∀ (mouse : SDL_Point) (b : Button),
        ∃ g1, (play 10 false true blank_board (single_cell 0) (single_cell 0)).HandleEvent mouse
            ⟨.SDL_KEYDOWN, b, .SDLK_UP⟩ = some g1 ∧
          g1.evolve_speed_ =
            if 0 ≤
                (play 10 false true blank_board (single_cell 0) (single_cell 0)).evolve_speed_ - 5
            then
              (play 10 false true blank_board (single_cell 0) (single_cell 0)).evolve_speed_ - 5
            else
              (play 10 false true blank_board (single_cell 0) (single_cell 0)).evolve_speed_)) :=
  ⟨(Reachable.init Game.init_eq).after_run _ play_ten_ticks,
    C9_speed_bounds _ ((Reachable.init Game.init_eq).after_run _ play_ten_ticks)⟩

/-- Claim C10. In any state the reset key (`r`) yields a state whose live board is
the snapshot board as it was, with `evolving_` false and the snapshot board
unchanged. A second reset handled right after it leaves that state as it is:
with the pointer where it was the state is returned unchanged, and in general
only the polled pointer position is recorded. -/
theorem C10_reset (g : Game) (mouse : SDL_Point) (b : Button) :
    ∃ g1, g.HandleEvent mouse ⟨.SDL_KEYDOWN, b, .SDLK_r⟩ = some g1 ∧
      g1.board_ = g.init_board_ ∧ g1.evolving_ = false ∧ g1.init_board_ = g.init_board_ ∧
      g1.HandleEvent mouse ⟨.SDL_KEYDOWN, b, .SDLK_r⟩ = some g1 ∧
      ∀ (mouse2 : SDL_Point) (b2 : Button),
        g1.HandleEvent mouse2 ⟨.SDL_KEYDOWN, b2, .SDLK_r⟩ =
          some { g1 with mouse_position_ := mouse2 } := by
  refine ⟨_, HandleEvent_key g mouse b .SDLK_r, rfl, rfl, rfl, ?_, ?_⟩
  · rw [HandleEvent_key]; rfl
  · intro mouse2 b2
    rw [HandleEvent_key]; rfl


/-- Witness for C1: the rule holds on the board with one alive cell at the origin. -/
theorem C1_evolve_rule_witness :
    GridBoard (play 0 false true (single_cell 0) blank_board (single_cell 0)).board_ ∧
    ∃ g1, (play 0 false true (single_cell 0) blank_board (single_cell 0)).EvolveBoard = some g1 ∧
      GridBoard g1.board_ ∧
      ∀ x y : Nat, x < 120 → y < 80 →
        alive_at g1.board_ (y * 120 + x) =
          spec_next_alive (play 0 false true (single_cell 0) blank_board (single_cell 0)).board_
            x y :=
  ⟨board_of_grid _, C1_evolve_rule _ (board_of_grid _)⟩

/-- Witness for C2: the cell at index 121 (second row, second column) of a grid board. -/
theorem C2_neighbours_membership_witness :
    GridBoard (single_cell 0) ∧ 121 < 120 * 80 ∧
    ∃ l, GetNeighboursIndices (single_cell 0) 121 = some l ∧
      (∀ j : Nat, j ∈ l ↔
        ∃ x' y' : Int, (j : Int) = y' * 120 + x' ∧
          (x', y') ≠ (((121 % 120 : Nat) : Int), ((121 / 120 : Nat) : Int)) ∧
          |x' - ((121 % 120 : Nat) : Int)| ≤ 1 ∧ |y' - ((121 / 120 : Nat) : Int)| ≤ 1 ∧
          0 ≤ x' ∧ x' < 120 ∧ 0 ≤ y' ∧ y' < 80) ∧
      (∀ j ∈ l, j < 120 * 80) :=
  ⟨board_of_grid _, by decide, C2_neighbours_membership _ (board_of_grid _) 121 (by decide)⟩

/-- Witness for C3: the top right corner, index 119, of a grid board. -/
theorem C3_neighbours_count_witness :
    GridBoard (single_cell 0) ∧ 119 < 120 * 80 ∧
    ∃ l, GetNeighboursIndices (single_cell 0) 119 = some l ∧ l.Nodup ∧
      l.length =
        if (119 % 120 = 0 ∨ 119 % 120 = 119) ∧ (119 / 120 = 0 ∨ 119 / 120 = 79) then 3
        else if 119 % 120 = 0 ∨ 119 % 120 = 119 ∨ 119 / 120 = 0 ∨ 119 / 120 = 79 then 5
        else 8 :=
  ⟨board_of_grid _, by decide, C3_neighbours_count _ (board_of_grid _) 119 (by decide)⟩

theorem GridBoard.after_set_alive {b b1 : List Cell} (hb : GridBoard b) {i : Nat} {v : Bool}
    (h : set_alive b i v = some b1) : GridBoard b1 := by
  unfold GameOfLife.set_alive at h
  split at h
  · contradiction
  · rename_i c hc
    simp only [Option.some.injEq] at h
    subst h
    refine ⟨by rw [List.length_set]; exact hb.1, ?_⟩
    intro y hy x hx
    rw [List.getElem?_set, ← hb.2 y hy x hx]
    by_cases hij : i = y * 120 + x
    · subst hij
      have hlt : y * 120 + x < b.length := by rw [hb.1]; omega
      simp [hlt, hc]
    · simp [hij]

theorem GridBoard.clear {b : List Cell} (hb : GridBoard b) :
    GridBoard (b.map (fun (cell : Cell) => { cell with alive_ := false })) := by
  refine ⟨by rw [List.length_map]; exact hb.1, ?_⟩
  intro y hy x hx
  rw [List.getElem?_map, ← hb.2 y hy x hx]
  cases b[y * 120 + x]? <;> rfl

theorem OnLeftButtonDown_grid {g g1 : Game} (hg : GridGame g) (h : OnLeftButtonDown g = some g1) :
    GridGame g1 := by
  obtain ⟨h1, h2, -⟩ := hg
  unfold OnLeftButtonDown at h
  cases hm : mouse_index g.mouse_position_ with
  | none => simp [hm] at h
  | some index =>
    cases hc : g.board_[index]? with
    | none => simp [hm, hc] at h
    | some c =>
      cases hs : set_alive g.board_ index (!c.alive_) with
      | none => simp [hm, hc, hs] at h
      | some b1 =>
        simp only [hm, hc, hs, Option.some.injEq] at h
        subst h
        exact ⟨h1.after_set_alive hs, h2, h1.after_set_alive hs⟩

theorem OnMouseMotion_grid {g g1 : Game} (hg : GridGame g) (h : OnMouseMotion g = some g1) :
    GridGame g1 := by
  obtain ⟨h1, h2, h3⟩ := hg
  unfold OnMouseMotion at h
  cases hp : g.mouse_left_pressed_ with
  | false =>
    simp only [hp, Bool.false_eq_true, if_false, Option.some.injEq] at h
    subst h
    exact ⟨h1, h2, h3⟩
  | true =>
    cases hm : mouse_index g.mouse_position_ with
    | none => simp [hp, hm] at h
    | some index =>
      cases hs : set_alive g.board_ index g.setting_walls_ with
      | none => simp [hp, hm, hs] at h
      | some b1 =>
        simp only [hp, hm, hs, if_true, Option.some.injEq] at h
        subst h
        exact ⟨h1.after_set_alive hs, h2, h1.after_set_alive hs⟩

theorem OnLeftButtonUp_grid {g : Game} (hg : GridGame g) : GridGame (OnLeftButtonUp g) :=
  ⟨hg.1, hg.2.1, hg.1⟩

theorem OnPointer_grid {g g1 : Game} {e : SDL_Event} (hg : GridGame g)
    (h : OnPointer g e = some g1) : GridGame g1 := by
  unfold OnPointer at h
  simp only at h
  split at h
  · contradiction
  · rename_i g2 hg2
    have h2 : GridGame g2 := by
      repeat' split at hg2
      all_goals first
        | exact OnLeftButtonDown_grid hg hg2
        | (simp only [Option.some.injEq] at hg2; subst hg2; exact OnLeftButtonUp_grid hg)
        | (simp only [Option.some.injEq] at hg2; subst hg2; exact hg)
    split at h
    · exact OnMouseMotion_grid h2 h
    · simp only [Option.some.injEq] at h; subst h; exact h2

theorem OnKeyDown_grid (g : Game) (sym : Keycode) (hg : GridGame g) :
    GridGame (OnKeyDown g sym) := by
  obtain ⟨h1, h2, h3⟩ := hg
  unfold OnKeyDown
  cases sym <;> simp only
  · split <;> exact ⟨h1, h2, h3⟩
  · exact ⟨h3, h2, h3⟩
  · split
    · exact ⟨h1.clear, h2, h1.clear⟩
    · exact ⟨h1, h2, h3⟩
  · split <;> exact ⟨h1, h2, h3⟩
  · split <;> exact ⟨h1, h2, h3⟩
  · exact ⟨h1, h2, h3⟩

theorem HandleEvent_grid {g g1 : Game} {mouse : SDL_Point} {e : SDL_Event} (hg : GridGame g)
    (h : g.HandleEvent mouse e = some g1) : GridGame g1 := by
  have hg0 : GridGame { g with mouse_position_ := mouse } := hg
  unfold Game.HandleEvent at h
  simp only at h
  split at h
  · simp only [Option.some.injEq] at h; subst h; exact hg
  · split at h
    · contradiction
    · rename_i g2 hg2
      have h2 : GridGame g2 := by
        split at hg2
        · exact OnPointer_grid hg0 hg2
        · simp only [Option.some.injEq] at hg2; subst hg2; exact hg
      split at h
      · simp only [Option.some.injEq] at h
        subst h
        exact OnKeyDown_grid g2 e.sym h2
      · simp only [Option.some.injEq] at h; subst h; exact h2

theorem EvolveBoard_keeps_grid {g g1 : Game} (hg : GridGame g) (h : g.EvolveBoard = some g1) :
    GridGame g1 := by
  obtain ⟨h1, h2, h3⟩ := hg
  cases hd : all_cells_dead g.board_ with
  | true =>
    rw [EvolveBoard_dead g hd, Option.some.injEq] at h
    subst h
    exact ⟨h1, h2, h3⟩
  | false =>
    rw [EvolveBoard_grid g h1 hd, Option.some.injEq] at h
    subst h
    exact ⟨board_of_grid _, h1, h3⟩

theorem Tick_grid {g g1 : Game} (hg : GridGame g) (h : g.Tick = some g1) : GridGame g1 := by
  rcases Tick_cases h with h1 | h1
  · rw [h1]; exact hg
  · refine EvolveBoard_keeps_grid ?_ h1
    exact hg

/-- Every state the program reaches has its three boards laid out on the grid. -/
theorem Reachable.grid_game {g : Game} (h : Reachable g) : GridGame g := by
  induction h with
  | init hi =>
    rw [Game.init_eq] at hi
    cases hi
    exact ⟨board_of_grid _, board_of_grid _, board_of_grid _⟩
  | event mouse e _ hs ih => exact HandleEvent_grid ih hs
  | tick _ hs ih => exact Tick_grid ih hs

/-- The key code of an event that is not a key event is not read. -/
theorem HandleEvent_sym_irrelevant (g : Game) (mouse : SDL_Point) (t : EventType) (b : Button)
    (sym sym1 : Keycode) (ht : t ≠ .SDL_KEYDOWN) :
    g.HandleEvent mouse ⟨t, b, sym⟩ = g.HandleEvent mouse ⟨t, b, sym1⟩ := by
  unfold Game.HandleEvent OnPointer
  simp [ht]

/-- The button of an event that is not a button event is not read. -/
theorem HandleEvent_button_irrelevant (g : Game) (mouse : SDL_Point) (t : EventType)
    (b b1 : Button) (sym : Keycode) (ht1 : t ≠ .SDL_MOUSEBUTTONDOWN)
    (ht2 : t ≠ .SDL_MOUSEBUTTONUP) :
    g.HandleEvent mouse ⟨t, b, sym⟩ = g.HandleEvent mouse ⟨t, b1, sym⟩ := by
  unfold Game.HandleEvent OnPointer
  simp [ht1, ht2]

/-- Claim C11. While editing, a left press with the pointer inside the grid
area toggles the alive flag of the cell under the pointer (the cell whose
rectangle contains the pointer position) in the live board and leaves every
other cell of the live board as it was; the snapshot board becomes equal to
the resulting live board and the paint value `setting_walls_` is the new alive
state of that cell. -/
theorem C11_press_toggles (g : Game) (mouse : SDL_Point) (sym : Keycode)
    (hed : g.evolving_ = false) (hb : GridBoard g.board_)
    (hx0 : 0 ≤ mouse.x) (hx1 : mouse.x < 1920) (hy0 : 0 ≤ mouse.y) (hy1 : mouse.y < 1280) :
    ∃ (g1 : Game) (i : Nat) (c c1 : Cell),
      g.HandleEvent mouse ⟨.SDL_MOUSEBUTTONDOWN, .SDL_BUTTON_LEFT, sym⟩ = some g1 ∧
      g.board_[i]? = some c ∧
      (c.rect_.x ≤ mouse.x ∧ mouse.x < c.rect_.x + c.rect_.w ∧
        c.rect_.y ≤ mouse.y ∧ mouse.y < c.rect_.y + c.rect_.h) ∧
      g1.board_[i]? = some c1 ∧ c1.rect_ = c.rect_ ∧ c1.alive_ = !c.alive_ ∧
      (∀ j, j ≠ i → g1.board_[j]? = g.board_[j]?) ∧
      g1.init_board_ = g1.board_ ∧
      g1.setting_walls_ = c1.alive_ := by
  have hm := mouse_index_in_grid mouse hx0 hx1 hy0 hy1
  have hi : (mouse.y / 16).toNat * 120 + (mouse.x / 16).toNat < 9600 := by omega
  obtain ⟨i, hi_def⟩ : ∃ i, i = (mouse.y / 16).toNat * 120 + (mouse.x / 16).toNat := ⟨_, rfl⟩
  rw [← hi_def] at hm hi
  have he := hb.eq_board_of
  have h := HandleEvent_left_press g mouse (alive_at g.board_) i hed he hm hi
  rw [left_press, HandleEvent_sym_irrelevant g mouse _ _ .other sym (by decide)] at h
  obtain ⟨c, hc, hr⟩ := hb.cell hi
  have hal : alive_at g.board_ i = c.alive_ := by simp [alive_at, hc]
  refine ⟨_, i, c, ⟨c.rect_, !c.alive_⟩, h, hc, ?_, ?_, rfl, rfl, ?_, rfl, ?_⟩
  · rw [hr]
    have hxm : ((i % 120 : Nat) : Int) = mouse.x / 16 := by omega
    have hym : ((i / 120 : Nat) : Int) = mouse.y / 16 := by omega
    simp only [hxm, hym]
    omega
  · show (board_of _)[i]? = _
    rw [board_of_getElem?, if_pos hi, hr]
    simp [grid_rect, hal]
  · intro j hj
    show (board_of _)[j]? = _
    rw [board_of_getElem?]
    conv_rhs => rw [he, board_of_getElem?]
    simp [hj]
  · show (!alive_at g.board_ i) = !c.alive_
    rw [hal]

/-- Claim C13. While the simulation runs (`evolving_` true) a pointer event of
any kind (button down, button up or motion, any button, any position) leaves
the state as it is but for the recorded pointer position: the live board, the
snapshot board, the paint value and the pressed flag are unchanged. -/
theorem C13_no_paint_while_running (g : Game) (mouse : SDL_Point) (e : SDL_Event)
    (hrun : g.evolving_ = true)
    (hp : e.type = .SDL_MOUSEBUTTONDOWN ∨ e.type = .SDL_MOUSEBUTTONUP ∨
      e.type = .SDL_MOUSEMOTION) :
    ∃ g1, g.HandleEvent mouse e = some g1 ∧ g1 = { g with mouse_position_ := mouse } ∧
      g1.board_ = g.board_ ∧ g1.init_board_ = g.init_board_ ∧
      g1.setting_walls_ = g.setting_walls_ ∧
      g1.mouse_left_pressed_ = g.mouse_left_pressed_ := by
  refine ⟨{ g with mouse_position_ := mouse }, ?_, rfl, rfl, rfl, rfl, rfl⟩
  unfold Game.HandleEvent
  rcases hp with h | h | h <;> simp [h, hrun]

/-- Witness for C13: a drag event in the running simulation of the example run. -/
theorem C13_no_paint_while_running_witness :
    (play 9 true true (single_cell 0) blank_board (single_cell 0)).evolving_ = true ∧
    (mouse_motion.type = .SDL_MOUSEBUTTONDOWN ∨ mouse_motion.type = .SDL_MOUSEBUTTONUP ∨
      mouse_motion.type = .SDL_MOUSEMOTION) ∧
    ∃ g1, (play 9 true true (single_cell 0) blank_board (single_cell 0)).HandleEvent ⟨40, 40⟩
        mouse_motion = some g1 ∧
      g1 = { play 9 true true (single_cell 0) blank_board (single_cell 0) with
        mouse_position_ := ⟨40, 40⟩ } ∧
      g1.board_ = (play 9 true true (single_cell 0) blank_board (single_cell 0)).board_ ∧
      g1.init_board_ =
        (play 9 true true (single_cell 0) blank_board (single_cell 0)).init_board_ ∧
      g1.setting_walls_ =
        (play 9 true true (single_cell 0) blank_board (single_cell 0)).setting_walls_ ∧
      g1.mouse_left_pressed_ =
        (play 9 true true (single_cell 0) blank_board (single_cell 0)).mouse_left_pressed_ :=
  ⟨rfl, Or.inr (Or.inr rfl),
    C13_no_paint_while_running _ ⟨40, 40⟩ mouse_motion rfl (Or.inr (Or.inr rfl))⟩

/-- Claim C14. The clear key (`c`) handled while editing makes every cell of the
live board dead, keeping the rectangles, and makes the snapshot board that same
all-dead board, changing nothing else (the polled pointer position apart);
handled while the simulation runs it leaves the state unchanged. -/
theorem C14_clear_key (g : Game) (mouse : SDL_Point) (b : Button) :
    ∃ g1, g.HandleEvent mouse ⟨.SDL_KEYDOWN, b, .SDLK_c⟩ = some g1 ∧
      g1 =
        (if g.evolving_ = true then { g with mouse_position_ := mouse }
        else
          { g with
            mouse_position_ := mouse
            board_ := g.board_.map (fun (cell : Cell) => { cell with alive_ := false })
            init_board_ := g.board_.map (fun (cell : Cell) => { cell with alive_ := false }) }) ∧
      (∀ c ∈ g.board_.map (fun (cell : Cell) => { cell with alive_ := false }),
        c.alive_ = false) := by
  refine ⟨_, HandleEvent_key g mouse b .SDLK_c, ?_, ?_⟩
  · cases h : g.evolving_ <;> simp [OnKeyDown, h]
  · intro c hc
    simp only [List.mem_map] at hc
    obtain ⟨c0, -, rfl⟩ := hc
    rfl

theorem cell_under_lt {p : SDL_Point} (h : in_grid p) : cell_under p < 9600 := by
  obtain ⟨h1, h2, h3, h4⟩ := h
  unfold cell_under
  omega

theorem mouse_index_cell_under {p : SDL_Point} (h : in_grid p) :
    mouse_index p = some (cell_under p) :=
  mouse_index_in_grid p h.1 h.2.1 h.2.2.1 h.2.2.2

/-- The press starts the gesture: the pressed cell is painted with the negation
of its state. -/
theorem Painting_press (g : Game) (p0 : SDL_Point) (hed : g.evolving_ = false)
    (hb : GridBoard g.board_) (h0 : in_grid p0) :
    ∃ g1, g.HandleEvent p0 left_press = some g1 ∧
      Painting g (!alive_at g.board_ (cell_under p0)) [cell_under p0] g1 := by
  have h := HandleEvent_left_press g p0 (alive_at g.board_) (cell_under p0) hed hb.eq_board_of
    (mouse_index_cell_under h0) (cell_under_lt h0)
  refine ⟨_, h, hed, rfl, rfl, ?_, rfl⟩
  show board_of _ = board_of _
  apply board_of_congr
  intro j _
  simp

/-- A motion event during the gesture paints the cell under the pointer with
the paint value and keeps the gesture going. -/
theorem Painting_move {g0 g : Game} {v : Bool} {visited : List Nat}
    (h : Painting g0 v visited g) (p : SDL_Point) (hp : in_grid p) :
    ∃ g1, g.HandleEvent p mouse_motion = some g1 ∧
      Painting g0 v (visited ++ [cell_under p]) g1 := by
  obtain ⟨hed, hpr, hv, hbd, hsn⟩ := h
  have h := HandleEvent_drag g p _ (cell_under p) hed hpr hbd (mouse_index_cell_under hp)
    (cell_under_lt hp)
  refine ⟨_, h, hed, hpr, hv, ?_, rfl⟩
  show board_of _ = board_of _
  apply board_of_congr
  intro j _
  rw [hv]
  by_cases hj : j = cell_under p
  · simp [hj]
  · simp [hj]

theorem Painting_drag {g0 : Game} {v : Bool} (moves : List SDL_Point)
    (hm : ∀ p ∈ moves, in_grid p) {visited : List Nat} {g : Game}
    (h : Painting g0 v visited g) :
    ∃ g1, g.run (drag moves) = some g1 ∧
      Painting g0 v (visited ++ moves.map cell_under) g1 := by
  induction moves generalizing visited g with
  | nil => exact ⟨g, rfl, by simpa using h⟩
  | cons p rest ih =>
    obtain ⟨g1, h1, hP1⟩ := Painting_move h p (hm p (List.mem_cons_self p rest))
    obtain ⟨g2, h2, hP2⟩ := ih (fun q hq => hm q (List.mem_cons_of_mem p hq)) hP1
    refine ⟨g2, ?_, ?_⟩
    · rw [drag, List.map_cons, run_event _ h1]
      exact h2
    · simpa using hP2

/-- Claim C12. A press-drag-release gesture made while editing on a grid board,
with the press and every motion event inside the grid area, returns; after the
release every cell visited by the press or by a motion event is alive exactly
when the paint value says so, the paint value being the negation of the pressed
cell's prior state; every unvisited cell is as before; the snapshot equals the
live board; and after the press and after each motion event of the gesture
`setting_walls_` is that same paint value. -/
theorem C12_drag_paint (g : Game) (p0 : SDL_Point) (moves : List SDL_Point) (pr : SDL_Point)
    (hed : g.evolving_ = false) (hb : GridBoard g.board_) (h0 : in_grid p0)
    (hm : ∀ p ∈ moves, in_grid p) :
    ∃ g1, g.run (gesture p0 moves pr) = some g1 ∧
      GridBoard g1.board_ ∧
      (∀ j, j ∈ cell_under p0 :: moves.map cell_under →
        alive_at g1.board_ j = !alive_at g.board_ (cell_under p0)) ∧
      (∀ j, j ∉ cell_under p0 :: moves.map cell_under → g1.board_[j]? = g.board_[j]?) ∧
      g1.init_board_ = g1.board_ ∧
      g1.setting_walls_ = (!alive_at g.board_ (cell_under p0)) ∧
      (∀ k : Nat, ∃ gk,
        g.run (Input.event p0 left_press :: drag (moves.take k)) = some gk ∧
          gk.setting_walls_ = !alive_at g.board_ (cell_under p0)) := by
  obtain ⟨ga, ha, hPa⟩ := Painting_press g p0 hed hb h0
  obtain ⟨gb, hgb, hPb⟩ := Painting_drag moves hm hPa
  have hrel := HandleEvent_left_release gb pr hPb.1
  have hvis : ∀ j, j ∈ cell_under p0 :: moves.map cell_under → j < 9600 := by
    intro j hj
    rcases List.mem_cons.mp hj with h | h
    · rw [h]; exact cell_under_lt h0
    · obtain ⟨p, hp, rfl⟩ := List.mem_map.mp h
      exact cell_under_lt (hm p hp)
  have hbd : gb.board_ =
      board_of (fun j => if j ∈ cell_under p0 :: moves.map cell_under then
        !alive_at g.board_ (cell_under p0) else alive_at g.board_ j) := by
    rw [hPb.2.2.2.1]; rfl
  refine ⟨{ gb with
      mouse_position_ := pr
      mouse_left_pressed_ := false
      init_board_ := gb.board_ }, ?_, ?_, ?_, ?_, rfl, hPb.2.2.1, ?_⟩
  · rw [gesture, run_event _ ha, run_append, hgb, Option.some_bind, run_event _ hrel, run_nil]
  · show GridBoard gb.board_
    rw [hbd]; exact board_of_grid _
  · intro j hj
    show alive_at gb.board_ j = _
    rw [hbd, alive_at_board_of]
    simp [hvis j hj, hj]
  · intro j hj
    show gb.board_[j]? = _
    rw [hbd, board_of_getElem?]
    conv_rhs => rw [hb.eq_board_of, board_of_getElem?]
    simp [hj]
  · intro k
    obtain ⟨gk, hgk, hPk⟩ := Painting_drag (moves.take k)
      (fun p hp => hm p (List.mem_of_mem_take hp)) hPa
    exact ⟨gk, by rw [run_event _ ha]; exact hgk, hPk.2.2.1⟩

/-- Witness for C12: in the constructed state, press at the origin, drag over
two further cells, release. -/
theorem C12_drag_paint_witness :
    start_game.evolving_ = false ∧ GridBoard start_game.board_ ∧
    in_grid (⟨0, 0⟩ : SDL_Point) ∧
    (∀ p ∈ ([⟨16, 0⟩, ⟨40, 20⟩] : List SDL_Point), in_grid p) ∧
    ∃ g1, start_game.run (gesture (⟨0, 0⟩ : SDL_Point) ([⟨16, 0⟩, ⟨40, 20⟩] : List SDL_Point) (⟨40, 20⟩ : SDL_Point)) = some g1 ∧
      GridBoard g1.board_ ∧
      (∀ j, j ∈ cell_under (⟨0, 0⟩ : SDL_Point) :: ([⟨16, 0⟩, ⟨40, 20⟩] : List SDL_Point).map cell_under →
        alive_at g1.board_ j = !alive_at start_game.board_ (cell_under (⟨0, 0⟩ : SDL_Point))) ∧
      (∀ j, j ∉ cell_under (⟨0, 0⟩ : SDL_Point) :: ([⟨16, 0⟩, ⟨40, 20⟩] : List SDL_Point).map cell_under → g1.board_[j]? = start_game.board_[j]?) ∧
      g1.init_board_ = g1.board_ ∧
      g1.setting_walls_ = (!alive_at start_game.board_ (cell_under (⟨0, 0⟩ : SDL_Point))) ∧
      (∀ k : Nat, ∃ gk,
        start_game.run (Input.event (⟨0, 0⟩ : SDL_Point) left_press :: drag (([⟨16, 0⟩, ⟨40, 20⟩] : List SDL_Point).take k)) = some gk ∧
          gk.setting_walls_ = !alive_at start_game.board_ (cell_under (⟨0, 0⟩ : SDL_Point))) :=
  have h0 : in_grid (⟨0, 0⟩ : SDL_Point) := ⟨by decide, by decide, by decide, by decide⟩
  have hm : ∀ p ∈ ([⟨16, 0⟩, ⟨40, 20⟩] : List SDL_Point), in_grid p := by
    intro p hp
    simp only [List.mem_cons, List.mem_singleton, List.not_mem_nil, or_false] at hp
    rcases hp with rfl | rfl <;> exact ⟨by decide, by decide, by decide, by decide⟩
  ⟨rfl, board_of_grid _, h0, hm,
    C12_drag_paint start_game ⟨0, 0⟩ [⟨16, 0⟩, ⟨40, 20⟩] ⟨40, 20⟩ rfl (board_of_grid _) h0 hm⟩

/-- Witness for C11: a click at pixel `(17, 33)` in the constructed state. -/
theorem C11_press_toggles_witness :
    start_game.evolving_ = false ∧ GridBoard start_game.board_ ∧
    (0 ≤ (⟨17, 33⟩ : SDL_Point).x ∧ (⟨17, 33⟩ : SDL_Point).x < 1920 ∧
      0 ≤ (⟨17, 33⟩ : SDL_Point).y ∧ (⟨17, 33⟩ : SDL_Point).y < 1280) ∧
    ∃ (g1 : Game) (i : Nat) (c c1 : Cell),
      start_game.HandleEvent (⟨17, 33⟩ : SDL_Point) ⟨.SDL_MOUSEBUTTONDOWN, .SDL_BUTTON_LEFT, Keycode.other⟩ = some g1 ∧
      start_game.board_[i]? = some c ∧
      (c.rect_.x ≤ (⟨17, 33⟩ : SDL_Point).x ∧ (⟨17, 33⟩ : SDL_Point).x < c.rect_.x + c.rect_.w ∧
        c.rect_.y ≤ (⟨17, 33⟩ : SDL_Point).y ∧ (⟨17, 33⟩ : SDL_Point).y < c.rect_.y + c.rect_.h) ∧
      g1.board_[i]? = some c1 ∧ c1.rect_ = c.rect_ ∧ c1.alive_ = !c.alive_ ∧
      (∀ j, j ≠ i → g1.board_[j]? = start_game.board_[j]?) ∧
      g1.init_board_ = g1.board_ ∧
      g1.setting_walls_ = c1.alive_ :=
  ⟨rfl, board_of_grid _, ⟨by decide, by decide, by decide, by decide⟩,
    C11_press_toggles start_game ⟨17, 33⟩ .other rfl (board_of_grid _)
      (by decide) (by decide) (by decide) (by decide)⟩

theorem EvolveBoard_ticks {g g1 : Game} (h : g.EvolveBoard = some g1) :
    g1.ticks_ = g.ticks_ := by
  unfold Game.EvolveBoard at h
  simp only at h
  repeat' split at h
  all_goals first
    | contradiction
    | (simp only [Option.some.injEq] at h; subst h; rfl)

/-- The increment of a counter at `INT_MAX` overflows. -/
theorem Tick_overflow (g : Game) (h : INT_MAX < g.ticks_ + 1) : g.Tick = none := by
  unfold Game.Tick int_checked
  have hn : ¬ (INT_MIN ≤ g.ticks_ + 1 ∧ g.ticks_ + 1 ≤ INT_MAX) := fun hc => by
    have := hc.2
    omega
  rw [if_neg hn]

/-- Claim C15 (as amended). A call of `Tick` made while the counter is below
`INT_MAX` increases `ticks_` by exactly one, evaluates the condition without
undefined behaviour, and then calls `EvolveBoard` exactly when `evolving_` is
true and `evolve_speed_` is zero or divides the incremented counter. With
`evolve_speed_ = 0` a running simulation evolves on that tick: the remainder,
which is undefined for a zero divisor, is not evaluated. -/
theorem C15_tick (g : Game) (h1 : INT_MIN ≤ g.ticks_) (h2 : g.ticks_ < INT_MAX) :
    evolve_due { g with ticks_ := g.ticks_ + 1 } =
        some (decide (g.evolving_ = true ∧
          (g.evolve_speed_ = 0 ∨ g.evolve_speed_ ∣ g.ticks_ + 1))) ∧
    g.Tick =
      (if g.evolving_ = true ∧ (g.evolve_speed_ = 0 ∨ g.evolve_speed_ ∣ g.ticks_ + 1) then
        Game.EvolveBoard { g with ticks_ := g.ticks_ + 1 }
      else some { g with ticks_ := g.ticks_ + 1 }) ∧
    (∀ g1, g.Tick = some g1 → g1.ticks_ = g.ticks_ + 1) ∧
    (g.evolving_ = true → g.evolve_speed_ = 0 →
      g.Tick = Game.EvolveBoard { g with ticks_ := g.ticks_ + 1 }) ∧
    int_rem (g.ticks_ + 1) 0 = none := by
  have hcond : (g.evolving_ && (g.evolve_speed_ == 0 ||
      Int.tmod (g.ticks_ + 1) g.evolve_speed_ == 0)) =
      decide (g.evolving_ = true ∧ (g.evolve_speed_ = 0 ∨ g.evolve_speed_ ∣ g.ticks_ + 1)) := by
    rw [Bool.eq_iff_iff]
    simp only [Bool.and_eq_true, Bool.or_eq_true, beq_iff_eq, decide_eq_true_eq,
      Int.dvd_iff_tmod_eq_zero]
  have hT := Tick_eq g h1 (by omega)
  rw [hcond] at hT
  simp only [decide_eq_true_eq] at hT
  refine ⟨?_, hT, ?_, ?_, ?_⟩
  · rw [evolve_due_eq _ (by show INT_MIN < g.ticks_ + 1; omega)]
    exact congrArg some hcond
  · intro g1 hg1
    rcases Tick_cases hg1 with h | h
    · rw [h]
    · exact EvolveBoard_ticks h
  · intro he hs
    rw [hT, if_pos ⟨he, Or.inl hs⟩]
  · simp [int_rem]

/-- Witness for C15: the state of the example run before its tenth tick. -/
theorem C15_tick_witness :
    INT_MIN ≤ (play 9 false true (single_cell 0) blank_board (single_cell 0)).ticks_ ∧
    (play 9 false true (single_cell 0) blank_board (single_cell 0)).ticks_ < INT_MAX ∧
    (evolve_due { (play 9 false true (single_cell 0) blank_board (single_cell 0)) with ticks_ := (play 9 false true (single_cell 0) blank_board (single_cell 0)).ticks_ + 1 } =
        some (decide ((play 9 false true (single_cell 0) blank_board (single_cell 0)).evolving_ = true ∧
          ((play 9 false true (single_cell 0) blank_board (single_cell 0)).evolve_speed_ = 0 ∨ (play 9 false true (single_cell 0) blank_board (single_cell 0)).evolve_speed_ ∣ (play 9 false true (single_cell 0) blank_board (single_cell 0)).ticks_ + 1))) ∧
    (play 9 false true (single_cell 0) blank_board (single_cell 0)).Tick =
      (if (play 9 false true (single_cell 0) blank_board (single_cell 0)).evolving_ = true ∧ ((play 9 false true (single_cell 0) blank_board (single_cell 0)).evolve_speed_ = 0 ∨ (play 9 false true (single_cell 0) blank_board (single_cell 0)).evolve_speed_ ∣ (play 9 false true (single_cell 0) blank_board (single_cell 0)).ticks_ + 1) then
        Game.EvolveBoard { (play 9 false true (single_cell 0) blank_board (single_cell 0)) with ticks_ := (play 9 false true (single_cell 0) blank_board (single_cell 0)).ticks_ + 1 }
      else some { (play 9 false true (single_cell 0) blank_board (single_cell 0)) with ticks_ := (play 9 false true (single_cell 0) blank_board (single_cell 0)).ticks_ + 1 }) ∧
    (∀ g1, (play 9 false true (single_cell 0) blank_board (single_cell 0)).Tick = some g1 → g1.ticks_ = (play 9 false true (single_cell 0) blank_board (single_cell 0)).ticks_ + 1) ∧
    ((play 9 false true (single_cell 0) blank_board (single_cell 0)).evolving_ = true → (play 9 false true (single_cell 0) blank_board (single_cell 0)).evolve_speed_ = 0 →
      (play 9 false true (single_cell 0) blank_board (single_cell 0)).Tick = Game.EvolveBoard { (play 9 false true (single_cell 0) blank_board (single_cell 0)) with ticks_ := (play 9 false true (single_cell 0) blank_board (single_cell 0)).ticks_ + 1 }) ∧
    int_rem ((play 9 false true (single_cell 0) blank_board (single_cell 0)).ticks_ + 1) 0 = none) :=
  ⟨by decide, by decide,
    C15_tick (play 9 false true (single_cell 0) blank_board (single_cell 0))
      (by decide) (by decide)⟩

/-- Ticks while editing only count. -/
theorem idle_run (n : Nat) (t : Int) (h0 : INT_MIN ≤ t) (h1 : t + n ≤ INT_MAX)
    (pressed : Bool) (board buffer snapshot : List Cell) :
    (play t pressed false board buffer snapshot).run (List.replicate n .tick) =
      some (play (t + n) pressed false board buffer snapshot) := by
  induction n generalizing t with
  | zero => simp [Game.run]
  | succ k ih =>
    push_cast at h1
    have hT : (play t pressed false board buffer snapshot).Tick =
        some (play (t + 1) pressed false board buffer snapshot) := by
      rw [Tick_eq _ h0 (by show t + 1 ≤ INT_MAX; omega)]
      rfl
    rw [List.replicate_succ, run_tick _ hT, ih (t + 1) (by omega) (by omega)]
    push_cast
    rw [add_assoc, add_comm 1 (k : Int)]

/-- Claim C15, counterexample. From the constructed state `2147483647` ticks
bring the counter to `INT_MAX`; the next call of `Tick` has to compute
`++ticks_` on it, a signed overflow: it does not increase `ticks_` by one. -/
theorem C15_counterexample :
    Game.init.bind (fun g => g.run (List.replicate 2147483647 Input.tick)) =
      some (play 2147483647 false false blank_board blank_board blank_board) ∧
    (play 2147483647 false false blank_board blank_board blank_board).Tick = none := by
  refine ⟨?_, Tick_overflow _ (by decide)⟩
  rw [Game.init_eq, Option.some_bind, start_game_eq,
    idle_run 2147483647 0 (by decide) (by decide)]
  rfl

/-- Claim C19. For every cell `(x, y)` of the `120 x 80` grid, `InitializeBoard`
stores at index `y * 120 + x` the dead cell whose rectangle has origin
`(16 x, 16 y)` and side `16`; `(index % 120, index / 120)` gives `(x, y)` back;
and for every pixel `(px, py)` inside that rectangle the pointer formula of the
controller, `(py / 16) * 120 + (px / 16)`, yields that same index. -/
theorem C19_index_round_trip (board : List Cell) (x y : Nat) (hx : x < 120) (hy : y < 80) :
    ∃ b, InitializeBoard board = some b ∧
      b[y * 120 + x]? = some ⟨⟨(x : Int) * 16, (y : Int) * 16, 16, 16⟩, false⟩ ∧
      ((y * 120 + x) % 120, (y * 120 + x) / 120) = (x, y) ∧
      ∀ px py : Int, (x : Int) * 16 ≤ px → px < (x : Int) * 16 + 16 →
        (y : Int) * 16 ≤ py → py < (y : Int) * 16 + 16 →
        mouse_index ⟨px, py⟩ = some (y * 120 + x) := by
  have hm : (y * 120 + x) % 120 = x := by omega
  have hd : (y * 120 + x) / 120 = y := by omega
  refine ⟨_, InitializeBoard_eq board, ?_, ?_, ?_⟩
  · rw [blank_board, board_of_getElem?, if_pos (by omega), grid_rect, hm, hd]
  · rw [hm, hd]
  · intro px py h1 h2 h3 h4
    rw [mouse_index_in_grid ⟨px, py⟩ (by show 0 ≤ px; omega) (by show px < 1920; omega)
      (by show 0 ≤ py; omega) (by show py < 1280; omega)]
    refine congrArg some ?_
    show (py / 16).toNat * 120 + (px / 16).toNat = y * 120 + x
    omega

/-- Witness for C19: the cell `(5, 7)` of the board initialised from the empty
vector. -/
theorem C19_index_round_trip_witness :
    5 < 120 ∧ 7 < 80 ∧
    ∃ b, InitializeBoard [] = some b ∧
      b[7 * 120 + 5]? = some ⟨⟨((5 : Nat) : Int) * 16, ((7 : Nat) : Int) * 16, 16, 16⟩, false⟩ ∧
      ((7 * 120 + 5) % 120, (7 * 120 + 5) / 120) = (5, 7) ∧
      ∀ px py : Int, ((5 : Nat) : Int) * 16 ≤ px → px < ((5 : Nat) : Int) * 16 + 16 →
        ((7 : Nat) : Int) * 16 ≤ py → py < ((7 : Nat) : Int) * 16 + 16 →
        mouse_index ⟨px, py⟩ = some (7 * 120 + 5) :=
  ⟨by decide, by decide, C19_index_round_trip [] 5 7 (by decide) (by decide)⟩

theorem cells_board_congr {A B : List (Nat × Nat)}
    (h : ∀ x y : Nat, x < 120 → y < 80 → ((x, y) ∈ A ↔ (x, y) ∈ B)) :
    cells_board A = cells_board B := by
  unfold cells_board
  apply board_of_congr
  intro i hi
  rw [Bool.eq_iff_iff]
  simp only [decide_eq_true_eq]
  exact h _ _ (by omega) (by omega)

theorem mem_shift {x0 y0 : Nat} {S : List (Int × Int)} (hS : Fits x0 y0 S) (x y : Nat) :
    (x, y) ∈ shift x0 y0 S ↔ ((x : Int) - x0, (y : Int) - y0) ∈ S := by
  unfold shift
  rw [List.mem_map]
  constructor
  · rintro ⟨s, hs, he⟩
    obtain ⟨h1, -, h3, -⟩ := hS s hs
    simp only [Prod.mk.injEq] at he
    have e1 : (x : Int) - x0 = s.1 := by omega
    have e2 : (y : Int) - y0 = s.2 := by omega
    rw [e1, e2]
    exact hs
  · intro h
    refine ⟨_, h, ?_⟩
    simp only [Prod.mk.injEq]
    constructor <;> omega

theorem spec_alive_cells {x0 y0 : Nat} {S : List (Int × Int)} (hS : Fits x0 y0 S)
    (x y : Int) :
    spec_alive (cells_board (shift x0 y0 S)) x y = decide ((x - x0, y - y0) ∈ S) := by
  unfold spec_alive cells_board
  rw [alive_at_board_of, Bool.eq_iff_iff]
  simp only [Bool.and_eq_true, decide_eq_true_eq]
  constructor
  · rintro ⟨⟨h1, h2, h3, h4⟩, -, hm⟩
    have e1 : (y * 120 + x).toNat % 120 = x.toNat := by omega
    have e2 : (y * 120 + x).toNat / 120 = y.toNat := by omega
    rw [e1, e2, mem_shift hS] at hm
    have e3 : ((x.toNat : Nat) : Int) = x := Int.toNat_of_nonneg h1
    have e4 : ((y.toNat : Nat) : Int) = y := Int.toNat_of_nonneg h3
    rw [e3, e4] at hm
    exact hm
  · intro hm
    obtain ⟨h1, h2, h3, h4⟩ := hS _ hm
    simp only at h1 h2 h3 h4
    have g1 : 0 ≤ x := by omega
    have g3 : 0 ≤ y := by omega
    refine ⟨⟨g1, by omega, g3, by omega⟩, by omega, ?_⟩
    have e1 : (y * 120 + x).toNat % 120 = x.toNat := by omega
    have e2 : (y * 120 + x).toNat / 120 = y.toNat := by omega
    rw [e1, e2, mem_shift hS, Int.toNat_of_nonneg g1, Int.toNat_of_nonneg g3]
    exact hm

/-- On the board of a pattern that fits the grid, the rule of the specification
is the rule on the unbounded plane in coordinates relative to the pattern. -/
theorem spec_next_alive_cells {x0 y0 : Nat} {S : List (Int × Int)} (hS : Fits x0 y0 S)
    (x y : Nat) :
    spec_next_alive (cells_board (shift x0 y0 S)) x y =
      rel_next S ((x : Int) - x0) ((y : Int) - y0) := by
  have hc : spec_alive_neighbours (cells_board (shift x0 y0 S)) x y =
      compass.countP (fun d => decide (((x : Int) - x0 + d.1, (y : Int) - y0 + d.2) ∈ S)) := by
    unfold spec_alive_neighbours
    apply List.countP_congr
    intro d _
    rw [spec_alive_cells hS]
    have e1 : (x : Int) + d.1 - x0 = (x : Int) - x0 + d.1 := by omega
    have e2 : (y : Int) + d.2 - y0 = (y : Int) - y0 + d.2 := by omega
    rw [e1, e2]
  unfold spec_next_alive rel_next
  rw [hc, spec_alive_cells hS]
  simp only [decide_eq_true_eq]

theorem cells_board_not_dead {x0 y0 : Nat} {S : List (Int × Int)} (hS : Fits x0 y0 S)
    (hne : S ≠ []) : all_cells_dead (cells_board (shift x0 y0 S)) = false := by
  rw [← Bool.not_eq_true, cells_board, all_cells_dead_board_of]
  intro h
  obtain ⟨s, hs⟩ := List.exists_mem_of_ne_nil S hne
  obtain ⟨h1, h2, h3, h4⟩ := hS s hs
  have hi := h (((y0 : Int) + s.2).toNat * 120 + ((x0 : Int) + s.1).toNat) (by omega)
  have e1 : ((((y0 : Int) + s.2).toNat * 120 + ((x0 : Int) + s.1).toNat) % 120) =
      ((x0 : Int) + s.1).toNat := by omega
  have e2 : ((((y0 : Int) + s.2).toNat * 120 + ((x0 : Int) + s.1).toNat) / 120) =
      ((y0 : Int) + s.2).toNat := by omega
  rw [e1, e2, decide_eq_false_iff_not, mem_shift hS, Int.toNat_of_nonneg h1,
    Int.toNat_of_nonneg h3] at hi
  apply hi
  have e3 : (x0 : Int) + s.1 - x0 = s.1 := by omega
  have e4 : (y0 : Int) + s.2 - y0 = s.2 := by omega
  rw [e3, e4]
  exact hs

/-- One call of `EvolveBoard` on the board of a pattern that fits the grid:
when the rule on the unbounded plane turns `S` into `S1`, and `S1` fits too,
the new live board is the board of `S1`. -/
theorem EvolveBoard_pattern (g : Game) (x0 y0 : Nat) (S S1 : List (Int × Int))
    (hS : Fits x0 y0 S) (hne : S ≠ []) (hS1 : Fits x0 y0 S1)
    (hrule : ∀ a b : Int, rel_next S a b = decide ((a, b) ∈ S1))
    (hg : g.board_ = cells_board (shift x0 y0 S)) :
    g.EvolveBoard =
      some { g with board_ := cells_board (shift x0 y0 S1), buffer_board_ := g.board_ } := by
  have hb : GridBoard g.board_ := by rw [hg]; exact board_of_grid _
  have hd : all_cells_dead g.board_ = false := by rw [hg]; exact cells_board_not_dead hS hne
  rw [EvolveBoard_grid g hb hd]
  have e : board_of (next_alive g.board_) = cells_board (shift x0 y0 S1) := by
    unfold cells_board
    apply board_of_congr
    intro i hi
    have hi2 : i = i / 120 * 120 + i % 120 := by omega
    have hn := next_alive_eq_spec g.board_ (i % 120) (i / 120) (by omega) (by omega)
    rw [← hi2] at hn
    rw [hn, hg, spec_next_alive_cells hS, hrule, Bool.eq_iff_iff]
    simp only [decide_eq_true_eq]
    exact (mem_shift hS1 _ _).symm
  rw [e]

/-- Far from the pattern nothing is alive and nothing is born. -/
theorem rel_next_far (S : List (Int × Int)) (a b : Int)
    (h : ∀ s ∈ S, s.1 < a - 1 ∨ a + 1 < s.1 ∨ s.2 < b - 1 ∨ b + 1 < s.2) :
    rel_next S a b = false := by
  have h0 : (a, b) ∉ S := fun hm => by
    have := h _ hm
    simp only at this
    omega
  have hc : compass.countP (fun d => decide ((a + d.1, b + d.2) ∈ S)) = 0 := by
    rw [List.countP_eq_zero]
    intro d hd
    simp only [decide_eq_true_eq]
    intro hm
    have := h _ hm
    simp only [compass, List.mem_cons, List.mem_singleton, List.not_mem_nil, or_false] at hd
    rcases hd with rfl | rfl | rfl | rfl | rfl | rfl | rfl | rfl <;> simp only at this <;> omega
  unfold rel_next
  rw [if_neg h0, hc]
  rfl

/-- The rule on the whole plane follows from the rule on a box around the
pattern. -/
theorem rule_of_box (S S1 : List (Int × Int)) (lo hi : Int)
    (hS : ∀ s ∈ S, lo ≤ s.1 ∧ s.1 ≤ hi ∧ lo ≤ s.2 ∧ s.2 ≤ hi)
    (hS1 : ∀ s ∈ S1, lo - 1 ≤ s.1 ∧ s.1 ≤ hi + 1 ∧ lo - 1 ≤ s.2 ∧ s.2 ≤ hi + 1)
    (hin : ∀ a b : Int, lo - 1 ≤ a → a ≤ hi + 1 → lo - 1 ≤ b → b ≤ hi + 1 →
      rel_next S a b = decide ((a, b) ∈ S1))
    (a b : Int) : rel_next S a b = decide ((a, b) ∈ S1) := by
  by_cases hbox : lo - 1 ≤ a ∧ a ≤ hi + 1 ∧ lo - 1 ≤ b ∧ b ≤ hi + 1
  · exact hin a b hbox.1 hbox.2.1 hbox.2.2.1 hbox.2.2.2
  · have hfar : rel_next S a b = false := by
      apply rel_next_far
      intro s hs
      have := hS s hs
      omega
    have hout : (a, b) ∉ S1 := fun hm => by
      have := hS1 _ hm
      simp only at this
      omega
    rw [hfar]
    exact (decide_eq_false hout).symm

theorem glider_rule01 (a b : Int) : rel_next glider0 a b = decide ((a, b) ∈ glider1) := by
  refine rule_of_box glider0 glider1 0 3 (by decide) (by decide) ?_ a b
  intro a b h1 h2 h3 h4
  interval_cases a <;> interval_cases b <;> decide

theorem glider_rule12 (a b : Int) : rel_next glider1 a b = decide ((a, b) ∈ glider2) := by
  refine rule_of_box glider1 glider2 0 3 (by decide) (by decide) ?_ a b
  intro a b h1 h2 h3 h4
  interval_cases a <;> interval_cases b <;> decide

theorem glider_rule23 (a b : Int) : rel_next glider2 a b = decide ((a, b) ∈ glider3) := by
  refine rule_of_box glider2 glider3 0 3 (by decide) (by decide) ?_ a b
  intro a b h1 h2 h3 h4
  interval_cases a <;> interval_cases b <;> decide

theorem glider_rule34 (a b : Int) : rel_next glider3 a b = decide ((a, b) ∈ glider4) := by
  refine rule_of_box glider3 glider4 0 3 (by decide) (by decide) ?_ a b
  intro a b h1 h2 h3 h4
  interval_cases a <;> interval_cases b <;> decide

theorem block_rule (a b : Int) : rel_next block0 a b = decide ((a, b) ∈ block0) := by
  refine rule_of_box block0 block0 0 1 (by decide) (by decide) ?_ a b
  intro a b h1 h2 h3 h4
  interval_cases a <;> interval_cases b <;> decide

theorem blinker_rule_hv (a b : Int) : rel_next blinker_h a b = decide ((a, b) ∈ blinker_v) := by
  refine rule_of_box blinker_h blinker_v (-1) 1 (by decide) (by decide) ?_ a b
  intro a b h1 h2 h3 h4
  interval_cases a <;> interval_cases b <;> decide

theorem blinker_rule_vh (a b : Int) : rel_next blinker_v a b = decide ((a, b) ∈ blinker_h) := by
  refine rule_of_box blinker_v blinker_h (-1) 1 (by decide) (by decide) ?_ a b
  intro a b h1 h2 h3 h4
  interval_cases a <;> interval_cases b <;> decide

/-- A pattern whose offsets lie in `[lo, hi]` fits at `(x0, y0)` when the box does. -/
theorem Fits_of_box {x0 y0 : Nat} {S : List (Int × Int)} (lo hi : Int)
    (hS : ∀ s ∈ S, lo ≤ s.1 ∧ s.1 ≤ hi ∧ lo ≤ s.2 ∧ s.2 ≤ hi)
    (hx0 : 0 ≤ (x0 : Int) + lo) (hx1 : (x0 : Int) + hi < 120)
    (hy0 : 0 ≤ (y0 : Int) + lo) (hy1 : (y0 : Int) + hi < 80) : Fits x0 y0 S := by
  intro s hs
  have := hS s hs
  omega

theorem EvolveBoard_times_succ {g g1 : Game} (n : Nat) (h : g.EvolveBoard = some g1) :
    EvolveBoard_times (n + 1) g = EvolveBoard_times n g1 := by
  simp only [EvolveBoard_times, h]

theorem EvolveBoard_times_zero (g : Game) : EvolveBoard_times 0 g = some g := rfl

theorem EvolveBoard_pattern_step (g : Game) (x0 y0 : Nat) (S S1 : List (Int × Int))
    (hS : Fits x0 y0 S) (hne : S ≠ []) (hS1 : Fits x0 y0 S1)
    (hrule : ∀ a b : Int, rel_next S a b = decide ((a, b) ∈ S1))
    (hg : g.board_ = cells_board (shift x0 y0 S)) :
    ∃ g1, g.EvolveBoard = some g1 ∧ g1.board_ = cells_board (shift x0 y0 S1) ∧
      g1.evolving_ = g.evolving_ :=
  ⟨_, EvolveBoard_pattern g x0 y0 S S1 hS hne hS1 hrule hg, rfl, rfl⟩

theorem glider_at_eq (x0 y0 : Nat) (hx : x0 + 3 ≤ 119) (hy : y0 + 3 ≤ 79) :
    cells_board (glider_at x0 y0) = cells_board (shift x0 y0 glider0) := by
  have hF : Fits x0 y0 glider0 :=
    Fits_of_box 0 3 (by decide) (by omega) (by omega) (by omega) (by omega)
  apply cells_board_congr
  intro x y _ _
  rw [mem_shift hF]
  simp only [glider_at, glider0, List.mem_cons, List.mem_singleton, List.not_mem_nil, or_false,
    Prod.mk.injEq]
  omega

theorem glider_at_moved_eq (x0 y0 : Nat) (hx : x0 + 3 ≤ 119) (hy : y0 + 3 ≤ 79) :
    cells_board (shift x0 y0 glider4) = cells_board (glider_at (x0 + 1) (y0 + 1)) := by
  have hF : Fits x0 y0 glider4 :=
    Fits_of_box 0 3 (by decide) (by omega) (by omega) (by omega) (by omega)
  apply cells_board_congr
  intro x y _ _
  rw [mem_shift hF]
  simp only [glider_at, glider4, List.mem_cons, List.mem_singleton, List.not_mem_nil, or_false,
    Prod.mk.injEq]
  omega

/-- Claim C16. For every offset `(x0, y0)` with `x0 + 3 ≤ 119` and `y0 + 3 ≤ 79`,
starting from the board whose only alive cells are the five glider cells
`(x0+1, y0)`, `(x0+2, y0+1)`, `(x0, y0+2)`, `(x0+1, y0+2)`, `(x0+2, y0+2)`, four
successive calls of `EvolveBoard` return and produce the board whose only alive
cells are those five cells moved by `(1, 1)`. -/
theorem C16_glider (g : Game) (x0 y0 : Nat) (hx : x0 + 3 ≤ 119) (hy : y0 + 3 ≤ 79)
    (hg : g.board_ = cells_board (glider_at x0 y0)) :
    ∃ g4, EvolveBoard_times 4 g = some g4 ∧
      g4.board_ = cells_board (glider_at (x0 + 1) (y0 + 1)) := by
  have hF : ∀ S : List (Int × Int), (∀ s ∈ S, 0 ≤ s.1 ∧ s.1 ≤ 3 ∧ 0 ≤ s.2 ∧ s.2 ≤ 3) →
      Fits x0 y0 S := fun S hS =>
    Fits_of_box 0 3 hS (by omega) (by omega) (by omega) (by omega)
  have h0 := hF glider0 (by decide)
  have h1 := hF glider1 (by decide)
  have h2 := hF glider2 (by decide)
  have h3 := hF glider3 (by decide)
  have h4 := hF glider4 (by decide)
  rw [glider_at_eq x0 y0 hx hy] at hg
  obtain ⟨g1, e1, b1, -⟩ := EvolveBoard_pattern_step g x0 y0 glider0 glider1 h0 (by decide) h1
    glider_rule01 hg
  obtain ⟨g2, e2, b2, -⟩ := EvolveBoard_pattern_step g1 x0 y0 glider1 glider2 h1 (by decide) h2
    glider_rule12 b1
  obtain ⟨g3, e3, b3, -⟩ := EvolveBoard_pattern_step g2 x0 y0 glider2 glider3 h2 (by decide) h3
    glider_rule23 b2
  obtain ⟨g4, e4, b4, -⟩ := EvolveBoard_pattern_step g3 x0 y0 glider3 glider4 h3 (by decide) h4
    glider_rule34 b3
  refine ⟨g4, ?_, b4.trans (glider_at_moved_eq x0 y0 hx hy)⟩
  rw [EvolveBoard_times_succ 3 e1, EvolveBoard_times_succ 2 e2, EvolveBoard_times_succ 1 e3,
    EvolveBoard_times_succ 0 e4, EvolveBoard_times_zero]
theorem block_at_eq (x0 y0 : Nat) (hx : x0 ≤ 118) (hy : y0 ≤ 78) :
    cells_board (block_at x0 y0) = cells_board (shift x0 y0 block0) := by
  have hF : Fits x0 y0 block0 :=
    Fits_of_box 0 1 (by decide) (by omega) (by omega) (by omega) (by omega)
  apply cells_board_congr
  intro x y _ _
  rw [mem_shift hF]
  simp only [block_at, block0, List.mem_cons, List.mem_singleton, List.not_mem_nil, or_false,
    Prod.mk.injEq]
  omega

/-- Claim C17. For every position `(x0, y0)` with `x0 ≤ 118` and `y0 ≤ 78`, blocks
on the grid border included, and every `n`, starting from the board whose only
alive cells are the `2 x 2` square at `(x0, y0)`, `n` successive calls of
`EvolveBoard` return and leave the live board equal to the starting board. -/
theorem C17_block (g : Game) (x0 y0 : Nat) (hx : x0 ≤ 118) (hy : y0 ≤ 78) (n : Nat)
    (hg : g.board_ = cells_board (block_at x0 y0)) :
    ∃ gn, EvolveBoard_times n g = some gn ∧ gn.board_ = g.board_ := by
  have hF : Fits x0 y0 block0 :=
    Fits_of_box 0 1 (by decide) (by omega) (by omega) (by omega) (by omega)
  induction n generalizing g with
  | zero => exact ⟨g, rfl, rfl⟩
  | succ k ih =>
    have hg0 := hg
    rw [block_at_eq x0 y0 hx hy] at hg0
    obtain ⟨g1, e1, b1, -⟩ := EvolveBoard_pattern_step g x0 y0 block0 block0 hF (by decide) hF
      block_rule hg0
    have hg1 : g1.board_ = cells_board (block_at x0 y0) := by
      rw [b1, block_at_eq x0 y0 hx hy]
    obtain ⟨gn, en, bn⟩ := ih g1 hg1
    exact ⟨gn, by rw [EvolveBoard_times_succ k e1]; exact en, by rw [bn, hg1, hg]⟩

theorem blinker_h_at_eq (cx cy : Nat) (hx1 : 1 ≤ cx) (hx2 : cx ≤ 118) (hy1 : 1 ≤ cy)
    (hy2 : cy ≤ 78) :
    cells_board (blinker_h_at cx cy) = cells_board (shift cx cy blinker_h) := by
  have hF : Fits cx cy blinker_h :=
    Fits_of_box (-1) 1 (by decide) (by omega) (by omega) (by omega) (by omega)
  apply cells_board_congr
  intro x y _ _
  rw [mem_shift hF]
  simp only [blinker_h_at, blinker_h, List.mem_cons, List.mem_singleton, List.not_mem_nil,
    or_false, Prod.mk.injEq]
  omega

theorem blinker_v_at_eq (cx cy : Nat) (hx1 : 1 ≤ cx) (hx2 : cx ≤ 118) (hy1 : 1 ≤ cy)
    (hy2 : cy ≤ 78) :
    cells_board (blinker_v_at cx cy) = cells_board (shift cx cy blinker_v) := by
  have hF : Fits cx cy blinker_v :=
    Fits_of_box (-1) 1 (by decide) (by omega) (by omega) (by omega) (by omega)
  apply cells_board_congr
  intro x y _ _
  rw [mem_shift hF]
  simp only [blinker_v_at, blinker_v, List.mem_cons, List.mem_singleton, List.not_mem_nil,
    or_false, Prod.mk.injEq]
  omega

/-- Claim C18. For every centre `(cx, cy)` with `1 ≤ cx ≤ 118` and `1 ≤ cy ≤ 78`,
starting from the board whose only alive cells are the horizontal line
`(cx-1, cy)`, `(cx, cy)`, `(cx+1, cy)`, one call of `EvolveBoard` produces the
board whose only alive cells are the vertical line `(cx, cy-1)`, `(cx, cy)`,
`(cx, cy+1)`, and a second call restores the starting board. -/
theorem C18_blinker (g : Game) (cx cy : Nat) (hx1 : 1 ≤ cx) (hx2 : cx ≤ 118) (hy1 : 1 ≤ cy)
    (hy2 : cy ≤ 78) (hg : g.board_ = cells_board (blinker_h_at cx cy)) :
    ∃ g1 g2, g.EvolveBoard = some g1 ∧ g1.board_ = cells_board (blinker_v_at cx cy) ∧
      g1.EvolveBoard = some g2 ∧ g2.board_ = g.board_ := by
  have hFh : Fits cx cy blinker_h :=
    Fits_of_box (-1) 1 (by decide) (by omega) (by omega) (by omega) (by omega)
  have hFv : Fits cx cy blinker_v :=
    Fits_of_box (-1) 1 (by decide) (by omega) (by omega) (by omega) (by omega)
  have hg0 := hg
  rw [blinker_h_at_eq cx cy hx1 hx2 hy1 hy2] at hg0
  obtain ⟨g1, e1, b1, -⟩ := EvolveBoard_pattern_step g cx cy blinker_h blinker_v hFh (by decide)
    hFv blinker_rule_hv hg0
  obtain ⟨g2, e2, b2, -⟩ := EvolveBoard_pattern_step g1 cx cy blinker_v blinker_h hFv (by decide)
    hFh blinker_rule_vh b1
  refine ⟨g1, g2, e1, ?_, e2, ?_⟩
  · rw [b1, blinker_v_at_eq cx cy hx1 hx2 hy1 hy2]
  · rw [b2, hg0]

/-- The alive cells of `cells_board cells` are exactly the listed ones. -/
theorem alive_at_cells_board (cells : List (Nat × Nat)) (x y : Nat) (hx : x < 120)
    (hy : y < 80) : alive_at (cells_board cells) (y * 120 + x) = decide ((x, y) ∈ cells) := by
  have hm : (y * 120 + x) % 120 = x := by omega
  have hd : (y * 120 + x) / 120 = y := by omega
  have hi : y * 120 + x < 9600 := by omega
  rw [cells_board, alive_at_board_of, hm, hd]
  simp [hi]

theorem cells_board_grid (cells : List (Nat × Nat)) : GridBoard (cells_board cells) :=
  board_of_grid _

/-- Witness for C16: the glider in the bottom right corner of the grid. -/
theorem C16_glider_witness :
    116 + 3 ≤ 119 ∧ 76 + 3 ≤ 79 ∧
    (play 0 false true (cells_board (glider_at 116 76)) blank_board blank_board).board_ =
      cells_board (glider_at 116 76) ∧
    ∃ g4, EvolveBoard_times 4
        (play 0 false true (cells_board (glider_at 116 76)) blank_board blank_board) = some g4 ∧
      g4.board_ = cells_board (glider_at (116 + 1) (76 + 1)) :=
  ⟨by decide, by decide, rfl, C16_glider _ 116 76 (by decide) (by decide) rfl⟩

/-- Witness for C17: the block in the bottom right corner of the grid, five
calls. -/
theorem C17_block_witness :
    118 ≤ 118 ∧ 78 ≤ 78 ∧
    (play 0 false true (cells_board (block_at 118 78)) blank_board blank_board).board_ =
      cells_board (block_at 118 78) ∧
    ∃ gn, EvolveBoard_times 5
        (play 0 false true (cells_board (block_at 118 78)) blank_board blank_board) = some gn ∧
      gn.board_ =
        (play 0 false true (cells_board (block_at 118 78)) blank_board blank_board).board_ :=
  ⟨by decide, by decide, rfl, C17_block _ 118 78 (by decide) (by decide) 5 rfl⟩

/-- Witness for C18: the blinker centred at `(1, 1)`, next to the grid corner. -/
theorem C18_blinker_witness :
    1 ≤ 1 ∧ 1 ≤ 118 ∧ 1 ≤ 1 ∧ 1 ≤ 78 ∧
    (play 0 false true (cells_board (blinker_h_at 1 1)) blank_board blank_board).board_ =
      cells_board (blinker_h_at 1 1) ∧
    ∃ g1 g2,
      (play 0 false true (cells_board (blinker_h_at 1 1)) blank_board blank_board).EvolveBoard =
        some g1 ∧
      g1.board_ = cells_board (blinker_v_at 1 1) ∧
      g1.EvolveBoard = some g2 ∧
      g2.board_ =
        (play 0 false true (cells_board (blinker_h_at 1 1)) blank_board blank_board).board_ :=
  ⟨by decide, by decide, by decide, by decide, rfl,
    C18_blinker _ 1 1 (by decide) (by decide) (by decide) (by decide) rfl⟩

/-- While the simulation runs a pointer event only records the pointer position. -/
theorem HandleEvent_pointer_running (g : Game) (mouse : SDL_Point) (e : SDL_Event)
    (hrun : g.evolving_ = true)
    (hp : e.type = .SDL_MOUSEBUTTONDOWN ∨ e.type = .SDL_MOUSEBUTTONUP ∨
      e.type = .SDL_MOUSEMOTION) :
    g.HandleEvent mouse e = some { g with mouse_position_ := mouse } := by
  unfold Game.HandleEvent
  rcases hp with h | h | h <;> simp [h, hrun]

theorem play_start_held :
    (play 0 true false (single_cell 0) blank_board (single_cell 0)).HandleEvent ⟨0, 0⟩
        (key_down .SDLK_s) =
      some (play 0 true true (single_cell 0) blank_board (single_cell 0)) := by
  rw [key_down, HandleEvent_key]
  have h : all_cells_dead (single_cell 0) = false := all_cells_dead_single_cell 0 (by decide)
  simp [OnKeyDown, play, h]

theorem play_release_ignored :
    (play 0 true true (single_cell 0) blank_board (single_cell 0)).HandleEvent ⟨0, 0⟩
        left_release =
      some (play 0 true true (single_cell 0) blank_board (single_cell 0)) := by
  rw [HandleEvent_pointer_running _ _ _ rfl (Or.inr (Or.inl rfl))]
  rfl

theorem play_stop_held :
    (play 0 true true (single_cell 0) blank_board (single_cell 0)).HandleEvent ⟨0, 0⟩
        (key_down .SDLK_s) =
      some (play 0 true false (single_cell 0) blank_board (single_cell 0)) := by
  rw [key_down, HandleEvent_key]
  have h : all_cells_dead (single_cell 0) = false := all_cells_dead_single_cell 0 (by decide)
  simp [OnKeyDown, play, h]

theorem play_press_start_release_stop :
    start_game.run press_start_release_stop =
      some (play 0 true false (single_cell 0) blank_board (single_cell 0)) := by
  rw [start_game_eq, press_start_release_stop, run_event _ play_press,
    run_event _ play_start_held, run_event _ play_release_ignored, run_event _ play_stop_held,
    run_nil]

theorem mouse_index_second_cell : mouse_index ⟨16, 0⟩ = some 1 := by decide

/-- Claim C20, failing input. From the constructed state: left press on the cell
at the origin, `s` (start), left release (ignored, the simulation runs), `s`
(stop). The most recent left-button event is the release, and
`mouse_left_pressed_` is still true; a motion event with the pointer at
`(16, 0)` then paints the second cell in the live board and the snapshot. -/
theorem C20_paint_after_release :
    (Game.init.bind (fun g => g.run press_start_release_stop)).map
        (fun g => (g.mouse_left_pressed_, g.evolving_, g.board_, g.init_board_)) =
      some (true, false, single_cell 0, single_cell 0) ∧
    (Game.init.bind (fun g =>
        g.run (press_start_release_stop ++ [.event ⟨16, 0⟩ mouse_motion]))).map
        (fun g => (g.board_, g.init_board_)) =
      some (board_of (fun j => decide (j = 0 ∨ j = 1)),
        board_of (fun j => decide (j = 0 ∨ j = 1))) ∧
    alive_at (single_cell 0) 1 = false ∧
    alive_at (board_of (fun j => decide (j = 0 ∨ j = 1))) 1 = true := by
  have hs : (single_cell 0) = board_of (fun j => decide (j = 0)) := by rw [single_cell]
  have hd := HandleEvent_drag (play 0 true false (single_cell 0) blank_board (single_cell 0))
    ⟨16, 0⟩ _ 1 rfl rfl hs mouse_index_second_cell (by decide)
  have hb : board_of (fun j => if j = 1 then
      (play 0 true false (single_cell 0) blank_board (single_cell 0)).setting_walls_
      else decide (j = 0)) = board_of (fun j => decide (j = 0 ∨ j = 1)) := by
    apply board_of_congr
    intro i _
    by_cases h0 : i = 0 <;> by_cases h1 : i = 1 <;> simp [h0, h1, play]
  refine ⟨?_, ?_, ?_, ?_⟩
  · rw [Game.init_eq, Option.some_bind, play_press_start_release_stop]
    rfl
  · rw [Game.init_eq, Option.some_bind, run_append, play_press_start_release_stop,
      Option.some_bind, run_event _ hd, run_nil, Option.map_some', hb]
  · rw [single_cell, alive_at_board_of]
    rfl
  · rw [alive_at_board_of]
    rfl

end GameOfLife
